import Mathlib

set_option maxRecDepth 100000

/-!
Verification development for the `pi-search` extension (`src/index.ts`).

The TypeScript helpers under test are pure functions over JSON-shaped
dynamic values, strings and byte sequences.  They are embedded shallowly:

* `JsVal` models the JavaScript values produced by `JSON.parse` plus
  `undefined` (absent object fields).  JavaScript numbers are modelled as
  integers: every numeric field the code touches (`start_index`,
  `end_index`) is an integral index, and floating-point is outside the
  model (the JSON grammar below accepts only integer literals).
* `jsonParse` models `JSON.parse` (success / exception as `Option`).
* `b64Decode` models Node's lenient `Buffer.from(s, "base64")`
  (standard and url-safe alphabets, non-alphabet characters ignored,
  a dangling trailing symbol dropped).
* `utf8Decode` models `buffer.toString("utf8")` (invalid sequences give
  U+FFFD; Lean strings are sequences of scalar values, so JavaScript's
  UTF-16 code-unit indexing coincides with ours on the data considered).
* Property accesses that would raise a `TypeError` in JavaScript
  (member access on `null`/`undefined`, method calls on non-strings) are
  modelled by `Option`: `none` is an exception escaping the function.
-/

inductive JsVal where
  | undef : JsVal
  | null : JsVal
  | bool : Bool → JsVal
  | num : Int → JsVal
  | str : String → JsVal
  | arr : List JsVal → JsVal
  | obj : List (String × JsVal) → JsVal

/-- Property access `v[k]` as it behaves on JSON-shaped values: on
`null`/`undefined` it throws (`none`); on an object it yields the value of
the last binding of `k` (JavaScript object literals keep the last duplicate
key) or `undefined`; on any other value it yields `undefined`. -/
def jsGet (v : JsVal) (k : String) : Option JsVal :=
  match v with
  | .undef => none
  | .null => none
  | .obj fs => some (fs.foldl (fun acc p => if p.1 = k then p.2 else acc) JsVal.undef)
  | _ => some JsVal.undef

/-- Optional-chaining access `v?.[k]`: never throws, `undefined` when the
receiver is `null`/`undefined`. -/
def jsGetOpt (v : JsVal) (k : String) : JsVal :=
  match jsGet v k with
  | some x => x
  | none => JsVal.undef

/-- JavaScript truthiness of a JSON-shaped value (`NaN` does not occur in
the model). -/
def truthy (v : JsVal) : Bool :=
  match v with
  | .undef => false
  | .null => false
  | .bool b => b
  | .num n => n != 0
  | .str s => s ≠ ""
  | .arr _ => true
  | .obj _ => true

/-- `true` exactly when `v` is the string `s` (models `v === "s"`). -/
def isStrEq (v : JsVal) (s : String) : Bool :=
  match v with
  | .str t => t = s
  | _ => false

/-- A string extraction used where the source calls a string method on the
value (`none` models the `TypeError` on a non-string receiver). -/
def asStr (v : JsVal) : Option String :=
  match v with
  | .str s => some s
  | _ => none

/-- `for (const x of v)` over a value defaulted with `?? []`: arrays give
their elements, `null`/`undefined` give the `[]` default, strings iterate
their characters, anything else is not iterable and throws. -/
def iterDefault (v : JsVal) : Option (List JsVal) :=
  match v with
  | .undef => some []
  | .null => some []
  | .arr xs => some xs
  | .str s => some (s.toList.map fun c => JsVal.str (String.mk [c]))
  | _ => none

/-- Whether an object value binds the key `k` at all (used to state claims
about "containing" a claim key, independently of truthiness). -/
def hasKey (v : JsVal) (k : String) : Bool :=
  match v with
  | .obj fs => fs.any (fun p => p.1 = k)
  | _ => false

/-! ## String primitive models

The JavaScript string methods the source uses (`trim`, `split`,
`startsWith`, `endsWith`, `slice`, `includes`) are modelled structurally
over the character list of the string. -/

/-- The whitespace class `\s` of JavaScript regular expressions (on the
characters occurring in the data considered). -/
def jsSpace (c : Char) : Bool :=
  c == ' ' || c == '\t' || c == '\n' || c == '\r' ||
    c == Char.ofNat 11 || c == Char.ofNat 12 || c == Char.ofNat 160

/-- Characters removed by the JavaScript string `trim`. -/
def trimWs (c : Char) : Bool :=
  jsSpace c || c == Char.ofNat 0xFEFF

/-- Model of `String.prototype.trim`. -/
def jsTrim (s : String) : String :=
  String.mk (((s.toList.dropWhile trimWs).reverse.dropWhile trimWs).reverse)

/-- `true` when `needle` matches at the head of `hay`. -/
def leadEq : List Char → List Char → Bool
  | [], _ => true
  | _ :: _, [] => false
  | n :: ns, h :: hs => n == h && leadEq ns hs

def containsAux (needle : List Char) : List Char → Bool
  | [] => leadEq needle []
  | c :: cs => leadEq needle (c :: cs) || containsAux needle cs

/-- `true` when `needle` occurs as a contiguous substring of `hay`
(model of JavaScript `String.prototype.includes`). -/
def strContains (hay needle : String) : Bool :=
  containsAux needle.toList hay.toList

/-- Model of `String.prototype.startsWith`. -/
def strStarts (s pre : String) : Bool :=
  leadEq pre.toList s.toList

/-- Model of `String.prototype.endsWith`. -/
def strEnds (s suf : String) : Bool :=
  leadEq suf.toList.reverse s.toList.reverse

/-- Model of `s.slice(n)` for a non-negative start. -/
def strDropL (s : String) (n : Nat) : String :=
  String.mk (s.toList.drop n)

/-- Removal of the final `n` characters. -/
def strDropR (s : String) (n : Nat) : String :=
  String.mk (s.toList.take (s.toList.length - n))

def splitOnCharAux (sep : Char) (acc : List Char) : List Char → List String
  | [] => [String.mk acc.reverse]
  | c :: cs =>
    if c = sep then String.mk acc.reverse :: splitOnCharAux sep [] cs
    else splitOnCharAux sep (c :: acc) cs

/-- Model of `String.prototype.split` with a one-character separator (the
only form the source uses). -/
def splitOnChar (sep : Char) (s : String) : List String :=
  splitOnCharAux sep [] s.toList

/-- First case-sensitive occurrence of a literal: the text before it and
the text after it. -/
def splitAtLit (pat : List Char) : List Char → Option (List Char × List Char)
  | [] =>
    match pat with
    | [] => some ([], [])
    | _ => none
  | c :: cs =>
    if leadEq pat (c :: cs) then some ([], (c :: cs).drop pat.length)
    else
      match splitAtLit pat cs with
      | some (pre, post) => some (c :: pre, post)
      | none => none

/-! ## JSON parsing (model of `JSON.parse`) -/

def jsonWs (c : Char) : Bool :=
  c == ' ' || c == '\t' || c == '\n' || c == '\r'

def skipWs (cs : List Char) : List Char :=
  cs.dropWhile jsonWs

def hexVal (c : Char) : Option Nat :=
  let n := c.toNat
  if 48 ≤ n ∧ n ≤ 57 then some (n - 48)
  else if 97 ≤ n ∧ n ≤ 102 then some (n - 87)
  else if 65 ≤ n ∧ n ≤ 70 then some (n - 55)
  else none

def jsonEscape (c : Char) : Option Char :=
  match c with
  | '"' => some '"'
  | '\\' => some '\\'
  | '/' => some '/'
  | 'b' => some (Char.ofNat 8)
  | 'f' => some (Char.ofNat 12)
  | 'n' => some '\n'
  | 'r' => some '\r'
  | 't' => some '\t'
  | _ => none

def repChar : Char := Char.ofNat 0xFFFD

def mkCharSafe (n : Nat) : Char :=
  if n.isValidChar then Char.ofNat n else repChar

def hex4 (a b c d : Char) : Option Nat := do
  let x1 ← hexVal a
  let x2 ← hexVal b
  let x3 ← hexVal c
  let x4 ← hexVal d
  pure (x1 * 4096 + x2 * 256 + x3 * 16 + x4)

/-- String-body scanner for JSON string literals: consumes characters up to
the closing quote, resolving escapes.  Surrogate-pair `\u` escapes are
combined; lone-surrogate escapes are outside the model (Lean strings hold
scalar values only). -/
def parseStrAux : List Char → Option (List Char × List Char)
  | [] => none
  | '"' :: rest => some ([], rest)
  | '\\' :: 'u' :: h1 :: h2 :: h3 :: h4 :: rest => do
    let n ← hex4 h1 h2 h3 h4
    if 0xD800 ≤ n ∧ n ≤ 0xDBFF then
      match rest with
      | '\\' :: 'u' :: g1 :: g2 :: g3 :: g4 :: rest2 => do
        let m ← hex4 g1 g2 g3 g4
        if 0xDC00 ≤ m ∧ m ≤ 0xDFFF then
          let cp := 0x10000 + (n - 0xD800) * 0x400 + (m - 0xDC00)
          match parseStrAux rest2 with
          | some (s, r) => some (mkCharSafe cp :: s, r)
          | none => none
        else none
      | _ => none
    else if 0xDC00 ≤ n ∧ n ≤ 0xDFFF then none
    else
      match parseStrAux rest with
      | some (s, r) => some (mkCharSafe n :: s, r)
      | none => none
  | '\\' :: e :: rest =>
    match jsonEscape e with
    | some c =>
      match parseStrAux rest with
      | some (s, r) => some (c :: s, r)
      | none => none
    | none => none
  | c :: rest =>
    if c.toNat < 0x20 then none
    else
      match parseStrAux rest with
      | some (s, r) => some (c :: s, r)
      | none => none

def digVal (c : Char) : Option Nat :=
  let n := c.toNat
  if 48 ≤ n ∧ n ≤ 57 then some (n - 48) else none

def takeDigits : List Char → (List Nat × List Char)
  | [] => ([], [])
  | c :: cs =>
    match digVal c with
    | some d => let (ds, r) := takeDigits cs; (d :: ds, r)
    | none => ([], c :: cs)

def natOfDigits (ds : List Nat) : Nat :=
  ds.foldl (fun a d => a * 10 + d) 0

/-- JSON number literal, restricted to the integral grammar (a fraction or
exponent makes the model decline the input; all numbers the program
consumes are integral indices). -/
def parseNum (cs : List Char) : Option (JsVal × List Char) :=
  let (neg, cs1) := match cs with
    | '-' :: r => (true, r)
    | _ => (false, cs)
  match cs1 with
  | c :: _ =>
    match digVal c with
    | none => none
    | some _ =>
      let (ds, rest) := takeDigits cs1
      if ds.length > 1 ∧ ds.headD 0 = 0 then none
      else
        match rest with
        | '.' :: _ => none
        | 'e' :: _ => none
        | 'E' :: _ => none
        | _ =>
          let v : Int := natOfDigits ds
          some (.num (if neg then -v else v), rest)
  | [] => none

mutual

def parseVal : Nat → List Char → Option (JsVal × List Char)
  | 0, _ => none
  | fuel + 1, cs =>
    match skipWs cs with
    | 'n' :: 'u' :: 'l' :: 'l' :: r => some (.null, r)
    | 't' :: 'r' :: 'u' :: 'e' :: r => some (.bool true, r)
    | 'f' :: 'a' :: 'l' :: 's' :: 'e' :: r => some (.bool false, r)
    | '"' :: r =>
      match parseStrAux r with
      | some (s, rest) => some (.str (String.mk s), rest)
      | none => none
    | '[' :: r =>
      match skipWs r with
      | ']' :: r2 => some (.arr [], r2)
      | r2 =>
        match parseElems fuel r2 with
        | some (xs, rest) => some (.arr xs, rest)
        | none => none
    | '{' :: r =>
      match skipWs r with
      | '}' :: r2 => some (.obj [], r2)
      | r2 =>
        match parseFields fuel r2 with
        | some (fs, rest) => some (.obj fs, rest)
        | none => none
    | other => parseNum other

def parseElems : Nat → List Char → Option (List JsVal × List Char)
  | 0, _ => none
  | fuel + 1, cs =>
    match parseVal fuel cs with
    | none => none
    | some (v, r) =>
      match skipWs r with
      | ',' :: r2 =>
        match parseElems fuel r2 with
        | some (xs, rest) => some (v :: xs, rest)
        | none => none
      | ']' :: r2 => some ([v], r2)
      | _ => none

def parseFields : Nat → List Char → Option (List (String × JsVal) × List Char)
  | 0, _ => none
  | fuel + 1, cs =>
    match skipWs cs with
    | '"' :: r =>
      match parseStrAux r with
      | none => none
      | some (ks, r2) =>
        match skipWs r2 with
        | ':' :: r3 =>
          match parseVal fuel r3 with
          | none => none
          | some (v, r4) =>
            match skipWs r4 with
            | ',' :: r5 =>
              match parseFields fuel r5 with
              | some (fs, rest) => some ((String.mk ks, v) :: fs, rest)
              | none => none
            | '}' :: r5 => some ([(String.mk ks, v)], r5)
            | _ => none
        | _ => none
    | _ => none

end

/-- Model of `JSON.parse`: `none` is the thrown `SyntaxError`. -/
def jsonParse (s : String) : Option JsVal :=
  let cs := s.toList
  match parseVal (cs.length * 2 + 8) cs with
  | some (v, rest) => if skipWs rest = [] then some v else none
  | none => none

/-! ## Base64 and UTF-8 decoding (models of the Node buffer primitives) -/

def b64CharVal (c : Char) : Option Nat :=
  let n := c.toNat
  if 65 ≤ n ∧ n ≤ 90 then some (n - 65)
  else if 97 ≤ n ∧ n ≤ 122 then some (n - 71)
  else if 48 ≤ n ∧ n ≤ 57 then some (n + 4)
  else if c = '+' ∨ c = '-' then some 62
  else if c = '/' ∨ c = '_' then some 63
  else none

def b64Groups : List Nat → List Nat
  | a :: b :: c :: d :: rest =>
    (a * 4 + b / 16) :: ((b % 16) * 16 + c / 4) :: ((c % 4) * 64 + d) :: b64Groups rest
  | [a, b, c] => [a * 4 + b / 16, (b % 16) * 16 + c / 4]
  | [a, b] => [a * 4 + b / 16]
  | _ => []

def b64Decode (s : String) : List Nat :=
  b64Groups (s.toList.filterMap b64CharVal)

def isCont (b : Nat) : Bool :=
  128 ≤ b && b ≤ 191

def utf8DecodeAux : List Nat → List Char
  | [] => []
  | b :: rest =>
    if b ≤ 0x7F then Char.ofNat b :: utf8DecodeAux rest
    else if 0xC2 ≤ b ∧ b ≤ 0xDF then
      match rest with
      | b2 :: rest2 =>
        if isCont b2 then mkCharSafe ((b - 0xC0) * 64 + (b2 - 0x80)) :: utf8DecodeAux rest2
        else repChar :: utf8DecodeAux (b2 :: rest2)
      | [] => [repChar]
    else if 0xE0 ≤ b ∧ b ≤ 0xEF then
      match rest with
      | b2 :: b3 :: rest2 =>
        if isCont b2 && isCont b3 && (b != 0xE0 || 0xA0 ≤ b2) then
          mkCharSafe ((b - 0xE0) * 4096 + (b2 - 0x80) * 64 + (b3 - 0x80)) :: utf8DecodeAux rest2
        else repChar :: utf8DecodeAux (b2 :: b3 :: rest2)
      | _ => [repChar]
    else if 0xF0 ≤ b ∧ b ≤ 0xF4 then
      match rest with
      | b2 :: b3 :: b4 :: rest2 =>
        if isCont b2 && isCont b3 && isCont b4 && (b != 0xF0 || 0x90 ≤ b2) && (b != 0xF4 || b2 ≤ 0x8F) then
          mkCharSafe ((b - 0xF0) * 262144 + (b2 - 0x80) * 4096 + (b3 - 0x80) * 64 + (b4 - 0x80)) :: utf8DecodeAux rest2
        else repChar :: utf8DecodeAux (b2 :: b3 :: b4 :: rest2)
      | _ => [repChar]
    else repChar :: utf8DecodeAux rest

def utf8Decode (bs : List Nat) : String :=
  String.mk (utf8DecodeAux bs)

/-! ## JWT helpers (`isCodexJwt`, `extractAccountId`, src/index.ts:124-144) -/

def AUTH_CLAIM : String := "https://api.openai.com/auth"

/-- Shared decode pipeline of both JWT helpers: split on `.`, require
exactly 3 segments, base64-decode the middle segment, UTF-8 decode, and
`JSON.parse` the result (`none` covers both the failed segment count and a
thrown parse error). -/
def jwtPayload (token : String) : Option JsVal :=
  let parts := splitOnChar '.' token
  if parts.length = 3 then jsonParse (utf8Decode (b64Decode (parts.getD 1 "")))
  else none

/-- `isCodexJwt` (src/index.ts:124): `!!payload?.["https://api.openai.com/auth"]`. -/
def isCodexJwt (token : String) : Bool :=
  match jwtPayload token with
  | some v => truthy (jsGetOpt v AUTH_CLAIM)
  | none => false

/-- `extractAccountId` (src/index.ts:134): the trimmed
`chatgpt_account_id` string under the vendor claim, when non-empty. -/
def extractAccountId (token : String) : Option String :=
  match jwtPayload token with
  | some v =>
    match jsGetOpt (jsGetOpt v AUTH_CLAIM) "chatgpt_account_id" with
    | .str id => if jsTrim id = "" then none else some (jsTrim id)
    | _ => none
  | none => none

/-! ## Snippet extraction (`extractSnippetAround`, src/index.ts:262-270) -/

/-- Clamp of one `String.prototype.slice` argument. -/
def jsIdx (len : Nat) (i : Int) : Nat :=
  if i < 0 then (max ((len : Int) + i) 0).toNat else min i.toNat len

/-- Model of `s.slice(a, b)` (character indices; the data considered is
within the basic multilingual plane, where UTF-16 code units and
characters coincide). -/
def jsSlice (s : String) (a b : Int) : String :=
  let cs := s.toList
  let st := jsIdx cs.length a
  let en := jsIdx cs.length b
  String.mk ((cs.drop st).take (en - st))

/-- Longest run of characters other than `stop`; `none` when `stop` does
not occur (the character-class regex pieces `[^x]*x` fail then). -/
def takeNo (stop : Char) : List Char → Option (List Char × List Char)
  | [] => none
  | c :: cs =>
    if c = stop then some ([], cs)
    else
      match takeNo stop cs with
      | some (run, rest) => some (c :: run, rest)
      | none => none

/-- One attempted match of `\[([^\]]*)\]\([^)]*\)` at the head of the
input: yields the captured label and the remainder after the match. -/
def mdLinkAt : List Char → Option (List Char × List Char)
  | '[' :: cs =>
    match takeNo ']' cs with
    | some (label, cs2) =>
      match cs2 with
      | '(' :: cs3 =>
        match takeNo ')' cs3 with
        | some (_, cs4) => some (label, cs4)
        | none => none
      | _ => none
    | none => none
  | _ => none

/-- Global replace of `\[([^\]]*)\]\([^)]*\)` by the capture `$1`:
leftmost match wins, the replacement is not rescanned, and on a failed
attempt the scan advances one character (exactly the engine's behaviour
for this pattern, whose character classes make matching deterministic).
The fuel is the input length; every step consumes at least one character. -/
def stripMdAux : Nat → List Char → List Char
  | 0, cs => cs
  | _, [] => []
  | fuel + 1, c :: cs =>
    match mdLinkAt (c :: cs) with
    | some (label, rest) => label ++ stripMdAux fuel rest
    | none => c :: stripMdAux fuel cs

def stripMdLinks (s : String) : String :=
  String.mk (stripMdAux s.length s.toList)

/-- `extractSnippetAround` (src/index.ts:262): padded window around the
citation, markdown links reduced to their labels, 300-character cap.
Absent (`undefined`/`null`) indices are `none`. -/
def extractSnippetAround (text : String) (s e : Option Int) : String :=
  match s, e with
  | some st, some en =>
    if text = "" then ""
    else
      let before : Int := max 0 (st - 100)
      let after : Int := min (text.length : Int) (en + 100)
      let snip1 := jsTrim (jsSlice text before after)
      let snip2 := jsTrim (stripMdLinks snip1)
      if snip2.length > 300 then jsSlice snip2 0 297 ++ "..." else snip2
  | _, _ => ""

/-- The stages of the snippet pipeline up to the cap, named for the
statements below: the padded window `[start-100, end+100]` clamped to the
text, trimmed, markdown links reduced to their labels, trimmed again. -/
def snippetWindow (text : String) (s e : Int) : String :=
  jsTrim (stripMdLinks (jsTrim (jsSlice text (max 0 (s - 100))
    (min (text.length : Int) (e + 100)))))

/-! ## Search result extraction (`extractSearchResults`, src/index.ts:225-260) -/

def UTM_SUFFIX : String := "?utm_source=openai"

/-- `url.replace(/\?utm_source=openai$/, "")`: one trailing occurrence of
the literal tracking suffix is removed. -/
def normalizeUrl (u : String) : String :=
  if strEnds u UTM_SUFFIX then strDropR u UTM_SUFFIX.length else u

/-- Index arguments of `extractSnippetAround` as they arrive from
annotation fields: `undefined`/`null` are absent (`start == null`), a
number is the index; other JSON values (which JavaScript would coerce
numerically) are outside the model. -/
def jsToIdx : JsVal → Option (Option Int)
  | .undef => some none
  | .null => some none
  | .num n => some (some n)
  | _ => none

/-- The call `extractSnippetAround(part.text ?? "", ann.start_index,
ann.end_index)` with dynamic arguments; `none` models a thrown
`TypeError` (string method on a truthy non-string text). -/
def extractSnippetJs (textv sv ev : JsVal) : Option String := do
  let s? ← jsToIdx sv
  let e? ← jsToIdx ev
  match s?, e? with
  | some s, some e =>
    match textv with
    | .str t => some (extractSnippetAround t (some s) (some e))
    | .undef => some ""
    | .null => some ""
    | v => if truthy v then none else some ""
  | _, _ => some ""

structure SearchResult where
  title : JsVal
  url : String
  snippet : String

structure ExtractSt where
  seen : List String
  results : List SearchResult

/-- The stored title `ann.title ?? url`. -/
def annTitle (ann : JsVal) (url : String) : JsVal :=
  match jsGet ann "title" with
  | some .undef => JsVal.str url
  | some .null => JsVal.str url
  | some tv => tv
  | none => JsVal.str url

/-- One `url_citation` annotation of pass 1 (loop body at
src/index.ts:236-244).  The `seen` insertion and the result push are
modelled atomically: in the source the snippet computation sits between
them, but if it throws the whole extraction throws, so the intermediate
state is unobservable. -/
def annStep (part : JsVal) (st : ExtractSt) (ann : JsVal) : Option ExtractSt :=
  match jsGet ann "type" with
  | none => none
  | some t =>
    if ¬ isStrEq t "url_citation" then some st
    else
      match jsGet ann "url" with
      | none => none
      | some uv =>
        if ¬ truthy uv then some st
        else
          match asStr uv with
          | none => none
          | some us =>
            if normalizeUrl us ∈ st.seen then some st
            else
              match jsGet part "text" with
              | none => none
              | some textv =>
                match jsGet ann "start_index", jsGet ann "end_index" with
                | some sv, some ev =>
                  match extractSnippetJs textv sv ev with
                  | none => none
                  | some snippet =>
                    some { seen := normalizeUrl us :: st.seen,
                           results := st.results ++
                             [{ title := annTitle ann (normalizeUrl us),
                                url := normalizeUrl us, snippet := snippet }] }
                | _, _ => none

def annLoop (part : JsVal) : ExtractSt → List JsVal → Option ExtractSt
  | st, [] => some st
  | st, a :: rest =>
    match annStep part st a with
    | none => none
    | some st2 => annLoop part st2 rest

/-- One content part of pass 1: iterate `part.annotations ?? []`. -/
def partStep (st : ExtractSt) (part : JsVal) : Option ExtractSt :=
  match jsGet part "annotations" with
  | none => none
  | some av =>
    match iterDefault av with
    | none => none
    | some anns => annLoop part st anns

def partLoop : ExtractSt → List JsVal → Option ExtractSt
  | st, [] => some st
  | st, p :: rest =>
    match partStep st p with
    | none => none
    | some st2 => partLoop st2 rest

/-- One output item of pass 1: skip non-`message` items, iterate
`item.content ?? []`. -/
def itemStep1 (st : ExtractSt) (item : JsVal) : Option ExtractSt :=
  match jsGet item "type" with
  | none => none
  | some t =>
    if ¬ isStrEq t "message" then some st
    else
      match jsGet item "content" with
      | none => none
      | some cv =>
        match iterDefault cv with
        | none => none
        | some parts => partLoop st parts

def itemLoop1 : ExtractSt → List JsVal → Option ExtractSt
  | st, [] => some st
  | st, i :: rest =>
    match itemStep1 st i with
    | none => none
    | some st2 => itemLoop1 st2 rest

/-- One backfill source of pass 2 (loop body at src/index.ts:250-256). -/
def srcStep (st : ExtractSt) (source : JsVal) : Option ExtractSt :=
  match jsGet source "url" with
  | none => none
  | some uv =>
    if ¬ truthy uv then some st
    else
      match asStr uv with
      | none => none
      | some us =>
        if normalizeUrl us ∈ st.seen then some st
        else some { seen := normalizeUrl us :: st.seen,
                    results := st.results ++
                      [{ title := JsVal.str (normalizeUrl us),
                         url := normalizeUrl us, snippet := "" }] }

def srcLoop : ExtractSt → List JsVal → Option ExtractSt
  | st, [] => some st
  | st, s :: rest =>
    match srcStep st s with
    | none => none
    | some st2 => srcLoop st2 rest

/-- One output item of pass 2: skip non-`web_search_call` items, iterate
`item.action?.sources ?? []`. -/
def itemStep2 (st : ExtractSt) (item : JsVal) : Option ExtractSt :=
  match jsGet item "type" with
  | none => none
  | some t =>
    if ¬ isStrEq t "web_search_call" then some st
    else
      match jsGet item "action" with
      | none => none
      | some av =>
        match iterDefault (jsGetOpt av "sources") with
        | none => none
        | some sources => srcLoop st sources

def itemLoop2 : ExtractSt → List JsVal → Option ExtractSt
  | st, [] => some st
  | st, i :: rest =>
    match itemStep2 st i with
    | none => none
    | some st2 => itemLoop2 st2 rest

/-- `extractSearchResults` (src/index.ts:225): two passes over `output`
sharing one seen-set; non-array `output` gives `[]`. -/
def extractSearchResults (responseObj : JsVal) : Option (List SearchResult) :=
  match jsGetOpt responseObj "output" with
  | .arr items =>
    match itemLoop1 { seen := [], results := [] } items with
    | none => none
    | some st1 =>
      match itemLoop2 st1 items with
      | none => none
      | some st2 => some st2.results
  | _ => some []

/-! Raw-URL views of a structured response, used to state what the two
passes traverse: the (string) URLs of `url_citation` annotations of
`message` items, and of `web_search_call` sources, in source order. -/

def annRawUrl (ann : JsVal) : Option String :=
  match jsGet ann "type" with
  | none => none
  | some t =>
    if ¬ isStrEq t "url_citation" then none
    else
      match jsGet ann "url" with
      | none => none
      | some uv => if ¬ truthy uv then none else asStr uv

def partRawUrls (part : JsVal) : List String :=
  match jsGet part "annotations" with
  | none => []
  | some av =>
    match iterDefault av with
    | none => []
    | some anns => anns.filterMap annRawUrl

def itemRawUrls1 (item : JsVal) : List String :=
  match jsGet item "type" with
  | none => []
  | some t =>
    if ¬ isStrEq t "message" then []
    else
      match jsGet item "content" with
      | none => []
      | some cv =>
        match iterDefault cv with
        | none => []
        | some parts => (parts.map partRawUrls).flatten

def annUrls (resp : JsVal) : List String :=
  match jsGetOpt resp "output" with
  | .arr items => (items.map itemRawUrls1).flatten
  | _ => []

def srcRawUrl (source : JsVal) : Option String :=
  match jsGet source "url" with
  | none => none
  | some uv => if ¬ truthy uv then none else asStr uv

def itemRawUrls2 (item : JsVal) : List String :=
  match jsGet item "type" with
  | none => []
  | some t =>
    if ¬ isStrEq t "web_search_call" then []
    else
      match jsGet item "action" with
      | none => []
      | some av =>
        match iterDefault (jsGetOpt av "sources") with
        | none => []
        | some sources => sources.filterMap srcRawUrl

def srcUrls (resp : JsVal) : List String :=
  match jsGetOpt resp "output" with
  | .arr items => (items.map itemRawUrls2).flatten
  | _ => []

/-- First-seen deduplication relative to an initial seen-list, returning
the kept elements and the final seen-list (which grows exactly by the
kept elements, newest first). -/
def dedupGo (seen : List String) : List String → List String × List String
  | [] => ([], seen)
  | x :: xs =>
    if x ∈ seen then dedupGo seen xs
    else
      let p := dedupGo (x :: seen) xs
      (x :: p.1, p.2)

def dedupFirst (xs : List String) : List String :=
  (dedupGo [] xs).1

/-! ## SSE response parsing (`parseSSEResponse`, src/index.ts:205-223) -/

def TERMINAL_ERR : String := "Failed to parse OpenAI SSE response"

/-- The `data: ` line scan of `parseSSEResponse`: the first terminal event
wins; blank payloads, the `[DONE]` sentinel, unparseable payloads, and the
caught property-access failure on a non-object payload are all skipped. -/
def scanLines : List String → Option JsVal
  | [] => none
  | l :: ls =>
    if strStarts l "data: " then
      let d := jsTrim (strDropL l 6)
      if d = "" ∨ d = "[DONE]" then scanLines ls
      else
        match jsonParse d with
        | none => scanLines ls
        | some p =>
          match jsGet p "type" with
          | none => scanLines ls
          | some t =>
            if isStrEq t "response.done" || isStrEq t "response.completed" then
              some (jsGetOpt p "response")
            else scanLines ls
    else scanLines ls

/-- `parseSSEResponse` (src/index.ts:205) over the response body text:
whole-body JSON shortcut when the trimmed body looks like a document,
otherwise (or when that parse throws) the line scan; `Except.error` is the
thrown `Error`. -/
def parseSSEResponse (text : String) : Except String JsVal :=
  let trimmed := jsTrim text
  let fromStream : Except String JsVal :=
    match scanLines (splitOnChar '\n' text) with
    | some v => Except.ok v
    | none => Except.error TERMINAL_ERR
  if strStarts trimmed "\x7b" ∨ strStarts trimmed "[" then
    match jsonParse trimmed with
    | some v => Except.ok v
    | none => fromStream
  else fromStream

/-- Classification of a single line by the specification's words: a
`data: ` line whose payload is neither blank nor `[DONE]`, parses as JSON,
and carries a terminal `type`, yields its `response` field. -/
def claimTerminal (line : String) : Option JsVal :=
  if strStarts line "data: " then
    let d := jsTrim (strDropL line 6)
    if d = "" ∨ d = "[DONE]" then none
    else
      match jsonParse d with
      | none => none
      | some p =>
        if isStrEq (jsGetOpt p "type") "response.done" ||
            isStrEq (jsGetOpt p "type") "response.completed" then
          some (jsGetOpt p "response")
        else none
  else none

/-! ## Article extraction (`htmlToMarkdown`, src/index.ts:280-308)

The DOM parser, the Readability heuristic, the Turndown converter and the
WHATWG URL resolver are external capabilities; `DomEnv` carries them as
oracles, while the repository-owned logic (the empty-content guard, the
`href` pattern scan, absolutisation, the `http` filter and the
insertion-order deduplication) is modelled concretely. -/

structure Article where
  content : String
  title : Option String

structure DomEnv where
  readability : String → String → Option Article
  turndown : String → String
  resolveURL : String → String → Option String

structure MdResult where
  markdown : String
  title : String
  links : List String

def lowEq (a b : Char) : Bool :=
  a.toLower == b.toLower

/-- Case-insensitive literal match at the head of the input, returning the
remainder on success. -/
def matchCI : List Char → List Char → Option (List Char)
  | [], cs => some cs
  | _, [] => none
  | p :: ps, c :: cs => if lowEq p c then matchCI ps cs else none

/-- Global scan for `/href="([^"]+)"/gi`: at each position try the literal
(case-insensitive) `href="`, then a non-empty run up to the closing quote;
on success continue after the match, on failure advance one character. -/
def hrefScanAux : Nat → List Char → List String
  | 0, _ => []
  | _, [] => []
  | fuel + 1, c :: cs =>
    match matchCI "href=\"".toList (c :: cs) with
    | some rest =>
      match takeNo '"' rest with
      | some ([], _) => hrefScanAux fuel cs
      | some (cap, rest2) => String.mk cap :: hrefScanAux fuel rest2
      | none => hrefScanAux fuel cs
    | none => hrefScanAux fuel cs

def hrefScan (s : String) : List String :=
  hrefScanAux s.length s.toList

/-- The link list built at src/index.ts:297-307: every scanned `href`
resolved against the base URL, kept when the absolute form starts with
`"http"`, deduplicated by `[...new Set(links)]` preserving first-seen
order. -/
def linksOf (resolve : String → Option String) (content : String) : List String :=
  dedupFirst ((hrefScan content).filterMap fun h =>
    match resolve h with
    | some abs => if strStarts abs "http" then some abs else none
    | none => none)

/-- `htmlToMarkdown` (src/index.ts:280): absent when the readability
oracle yields no article or the article content is falsy (empty). -/
def htmlToMarkdown (dom : DomEnv) (html url : String) : Option MdResult :=
  match dom.readability html url with
  | none => none
  | some a =>
    if a.content = "" then none
    else some { markdown := dom.turndown a.content,
                title := a.title.getD "",
                links := linksOf (fun h => dom.resolveURL h url) a.content }

def isSchemeChar (c : Char) : Bool :=
  c.isAlpha || c.isDigit || c == '+' || c == '-' || c == '.'

/-- Whether a reference carries an explicit scheme (`scheme:` head). -/
def hasScheme (s : String) : Bool :=
  let cs := s.toList
  let pre := cs.takeWhile (fun c => c != ':')
  decide (pre.length < cs.length) && (match pre with
    | c :: _ => c.isAlpha && pre.all isSchemeChar
    | [] => false)

def originOf (base : String) : Option String :=
  match splitAtLit "://".toList base.toList with
  | some (schCs, restCs) =>
    let sch := String.mk schCs
    let host := String.mk (restCs.takeWhile (fun c => c != '/'))
    if sch = "" ∨ host = "" then none else some (sch ++ "://" ++ host)
  | none => none

/-- Model of the platform resolver `new URL(href, base).href`, restricted
to the reference forms the development exercises: a reference with an
explicit scheme resolves to itself (adequate for non-special schemes and
for already-normalised `http(s)` URLs), and a path-absolute reference
resolves against the origin of an `http(s)` base.  Other forms are outside
the model. -/
def resolveURLModel (href base : String) : Option String :=
  if hasScheme href then some href
  else if strStarts href "/" && ! strStarts href "//" then
    match originOf base with
    | some origin => some (origin ++ href)
    | none => none
  else none

/-! ## Fetch orchestration (`smartFetch`, src/index.ts:359-405)

The two network tiers are oracles in `FetchEnv` (`Except.error` models the
thrown failure).  `smartFetch` additionally returns the ordered trace of
tier invocations and article-extraction attempts, which the source
performs as side effects. -/

def DEFAULT_MAX_BYTES : Nat := 50000

structure StaticResp where
  html : String
  contentType : String
  finalUrl : String

structure FetchEnv where
  static : Except String StaticResp
  heavy : Except String String

inductive FetchEvent where
  | lightFetch : FetchEvent
  | heavyFetch : FetchEvent
  | extractArticle : FetchEvent
deriving DecidableEq

def isNetworkFetch : FetchEvent → Bool
  | .extractArticle => false
  | _ => true

structure FetchOut where
  markdown : String
  title : String
  links : List String
  method : String

/-- Byte-budget cap of the non-HTML branch (src/index.ts:370). -/
def capBody (html : String) : String :=
  if html.length > DEFAULT_MAX_BYTES then
    jsSlice html 0 (DEFAULT_MAX_BYTES : Int) ++ "\n[truncated]"
  else html

/-- First split at a case-insensitive literal occurrence: the text before
the pattern and the text after it. -/
def splitAtCI (pat : List Char) : List Char → Option (List Char × List Char)
  | [] =>
    match pat with
    | [] => some ([], [])
    | _ => none
  | c :: cs =>
    match matchCI pat (c :: cs) with
    | some rest => some ([], rest)
    | none =>
      match splitAtCI pat cs with
      | some (pre, post) => some (c :: pre, post)
      | none => none

/-- Global removal of lazily delimited blocks, modelling
`/<tag[\s\S]*?<\/tag>/gi`: each leftmost opening literal paired with the
first closing literal after it is removed; an opening with no closing
matches nothing and scanning ends. -/
def removeBlocksAux : Nat → List Char → List Char → List Char → List Char
  | 0, _, _, cs => cs
  | fuel + 1, opener, closer, cs =>
    match splitAtCI opener cs with
    | none => cs
    | some (pre, afterOpen) =>
      match splitAtCI closer afterOpen with
      | none => cs
      | some (_, afterClose) => pre ++ removeBlocksAux fuel opener closer afterClose

def removeBlocks (opener closer s : String) : String :=
  String.mk (removeBlocksAux s.length opener.toList closer.toList s.toList)

/-- Global replace of `/<[^>]+>/g` by a space. -/
def stripTagsAux : Nat → List Char → List Char
  | 0, cs => cs
  | _, [] => []
  | fuel + 1, c :: cs =>
    if c = '<' then
      match takeNo '>' cs with
      | some ([], _) => c :: stripTagsAux fuel cs
      | some (_, rest) => ' ' :: stripTagsAux fuel rest
      | none => c :: stripTagsAux fuel cs
    else c :: stripTagsAux fuel cs

def stripTags (s : String) : String :=
  String.mk (stripTagsAux s.length s.toList)

/-- Global replace of `/\s+/g` by a single space. -/
def collapseWsAux : Bool → List Char → List Char
  | _, [] => []
  | prevWs, c :: cs =>
    if jsSpace c then
      if prevWs then collapseWsAux true cs
      else ' ' :: collapseWsAux true cs
    else c :: collapseWsAux false cs

def collapseWs (s : String) : String :=
  String.mk (collapseWsAux false s.toList)

/-- The `playwright-raw` last resort (src/index.ts:395-400). -/
def basicText (html : String) : String :=
  jsTrim (collapseWs (stripTags (removeBlocks "<style" "</style>"
    (removeBlocks "<script" "</script>" html))))

/-- The heavy-render tier of `smartFetch` (src/index.ts:386-404): a thrown
render failure is wrapped; otherwise the article extraction is retried on
the rendered HTML with the original URL as base, falling back to
`playwright-raw`. -/
def heavyPhase (dom : DomEnv) (fe : FetchEnv) (url : String) (tr : List FetchEvent) :
    Except String FetchOut × List FetchEvent :=
  match fe.heavy with
  | .error msg =>
    (.error ("Playwright fetch failed: " ++ msg ++ ". Try with a different URL."),
      tr ++ [.heavyFetch])
  | .ok html =>
    match htmlToMarkdown dom html url with
    | some res =>
      (.ok { markdown := res.markdown, title := res.title, links := res.links,
             method := "playwright+readability" }, tr ++ [.heavyFetch, .extractArticle])
    | none =>
      (.ok { markdown := basicText html, title := url, links := [], method := "playwright-raw" },
        tr ++ [.heavyFetch, .extractArticle])

/-- `smartFetch` (src/index.ts:359): static-first strategy with the
200-character readability floor and escalation to the heavy tier. -/
def smartFetch (dom : DomEnv) (fe : FetchEnv) (url : String) (usePlaywright : Bool) :
    Except String FetchOut × List FetchEvent :=
  if usePlaywright then heavyPhase dom fe url []
  else
    match fe.static with
    | .error e => (.error e, [.lightFetch])
    | .ok r =>
      if ¬ strContains r.contentType "html" then
        (.ok { markdown := capBody r.html, title := url, links := [], method := "static-raw" },
          [.lightFetch])
      else
        match htmlToMarkdown dom r.html r.finalUrl with
        | some res =>
          if (jsTrim res.markdown).length > 200 then
            (.ok { markdown := res.markdown, title := res.title, links := res.links,
                   method := "static+readability" }, [.lightFetch, .extractArticle])
          else heavyPhase dom fe url [.lightFetch, .extractArticle]
        | none => heavyPhase dom fe url [.lightFetch, .extractArticle]

/-! ## Concrete instances used in the claims -/

/-- The snippet test string of the repository's test suite. -/
def snippetTestText : String :=
  "1234567890 [Example](https://example.com) and some extra context around the cited content."

/-- A long text containing the same markdown link, pushing the link label
beyond the 300-character cap. -/
def longSnippetText : String :=
  String.mk (List.replicate 300 'a') ++ "[Example](https://example.com)"

/-- A text containing the same markdown link but also a bare occurrence of
the URL outside any link markup. -/
def bareUrlText : String :=
  "https://example.com and [Example](https://example.com)"

/-- Structured response with two citation annotations normalising to the
same URL plus one duplicate and one distinct backfill source. -/
def respC1 : JsVal :=
  .obj [("output", .arr [
    .obj [("type", .str "message"), ("content", .arr [
      .obj [("type", .str "output_text"),
            ("text", .str "Some text with citations"),
            ("annotations", .arr [
              .obj [("type", .str "url_citation"), ("title", .str "Source A"),
                    ("url", .str "https://a.test?utm_source=openai"),
                    ("start_index", .num 0), ("end_index", .num 10)],
              .obj [("type", .str "url_citation"), ("title", .str "Source A duplicate"),
                    ("url", .str "https://a.test"),
                    ("start_index", .num 0), ("end_index", .num 10)]])]])],
    .obj [("type", .str "web_search_call"), ("action", .obj [("sources", .arr [
      .obj [("url", .str "https://a.test?utm_source=openai")],
      .obj [("url", .str "https://b.test")]])])]])]

def resultsC1 : List SearchResult :=
  [{ title := .str "Source A", url := "https://a.test", snippet := "Some text with citations" },
   { title := .str "https://b.test", url := "https://b.test", snippet := "" }]

/-- Codex OAuth token whose payload holds an account id (base64 of
`\x7b"https://api.openai.com/auth":\x7b"chatgpt_account_id":"acct-xyz"\x7d\x7d`). -/
def tokGood : String :=
  "e30.eyJodHRwczovL2FwaS5vcGVuYWkuY29tL2F1dGgiOnsiY2hhdGdwdF9hY2NvdW50X2lkIjoiYWNjdC14eXoifX0=.sig"

/-- Token whose payload binds the vendor claim key to `false` (base64 of
`\x7b"https://api.openai.com/auth":false\x7d`). -/
def tokFalsy : String :=
  "e30.eyJodHRwczovL2FwaS5vcGVuYWkuY29tL2F1dGgiOmZhbHNlfQ==.sig"

/-- Token whose embedded account id carries surrounding whitespace
(base64 of `\x7b"https://api.openai.com/auth":\x7b"chatgpt_account_id":" abc "\x7d\x7d`). -/
def tokTrim : String :=
  "e30.eyJodHRwczovL2FwaS5vcGVuYWkuY29tL2F1dGgiOnsiY2hhdGdwdF9hY2NvdW50X2lkIjoiIGFiYyAifX0=.sig"

/-- The event-stream body of the repository's test suite. -/
def sseBody : String :=
  "data: \x7b\"type\":\"response.in_progress\"\x7d\ndata: \x7b\"type\":\"response.done\",\"response\":\x7b\"output\":[]\x7d\x7d\ndata: [DONE]\n"

/-- A whole-document JSON body that itself looks like a terminal event. -/
def jsonDocBody : String :=
  "\x7b\"type\":\"response.done\",\"response\":5\x7d"

/-- A body whose trimmed text starts with a brace but fails the
whole-body parse, followed by a terminal `data: ` line. -/
def brokenJsonBody : String :=
  "\x7boops\ndata: \x7b\"type\":\"response.done\",\"response\":5\x7d\n"

/-- Oracle instantiation for concrete article-extraction tests: the
readability oracle returns the raw HTML as the article fragment. -/
def domModel : DomEnv :=
  { readability := fun html _ => some { content := html, title := some "T" },
    turndown := id,
    resolveURL := resolveURLModel }

def articleHtmlC7 : String :=
  "<h1>My Article</h1>\n<p>Hello <a href=\"/docs/page\">world</a>.</p>"

def evilHtml : String :=
  "<p><a href=\"httpx://evil.test/x\">z</a></p>"

/-- Light fetch returns HTML whose extracted article is short: forces the
escalation path. -/
def feEscalate : FetchEnv :=
  { static := .ok { html := "<div>hi</div>", contentType := "text/html",
                    finalUrl := "https://example.com/final" },
    heavy := .ok "<div>rendered page</div>" }

/-- Light fetch returns a non-HTML response. -/
def feRaw : FetchEnv :=
  { static := .ok { html := "plain text body", contentType := "text/plain",
                    finalUrl := "https://example.com/t" },
    heavy := .error "unused" }

/-! ## Helper lemmas -/

theorem strLen_mk (l : List Char) : (String.mk l).length = l.length := rfl

theorem strLen_append (a b : String) : (a ++ b).length = a.length + b.length :=
  String.length_append a b

theorem jsIdx_zero (len : Nat) : jsIdx len 0 = 0 := by
  norm_num [jsIdx]

theorem jsIdx_of_nonneg_le (len : Nat) (i : Int) (hi : 0 ≤ i) : (jsIdx len i : Int) ≤ i := by
  unfold jsIdx
  rw [if_neg (by omega)]
  omega

theorem jsSlice_trunc_length (s : String) : (jsSlice s 0 297).length ≤ 297 := by
  unfold jsSlice
  rw [strLen_mk]
  have h1 := List.length_take_le (jsIdx s.toList.length 297 - jsIdx s.toList.length 0)
    (s.toList.drop (jsIdx s.toList.length 0))
  have h2 : (jsIdx s.toList.length 297 : Int) ≤ 297 :=
    jsIdx_of_nonneg_le s.toList.length 297 (by omega)
  omega

theorem dedupGo_append (seen l1 l2 : List String) :
    dedupGo seen (l1 ++ l2) =
      ((dedupGo seen l1).1 ++ (dedupGo (dedupGo seen l1).2 l2).1,
        (dedupGo (dedupGo seen l1).2 l2).2) := by
  induction l1 generalizing seen with
  | nil => simp [dedupGo]
  | cons x xs ih =>
    by_cases hx : x ∈ seen
    · simp [dedupGo, hx, ih]
    · simp [dedupGo, hx, ih]

theorem dedupGo_mem (l : List String) (seen : List String) (u : String) :
    u ∈ (dedupGo seen l).1 ↔ u ∈ l ∧ u ∉ seen := by
  induction l generalizing seen with
  | nil => simp [dedupGo]
  | cons x xs ih =>
    by_cases hx : x ∈ seen
    · simp only [dedupGo, if_pos hx, ih, List.mem_cons]
      constructor
      · rintro ⟨h1, h2⟩
        exact ⟨Or.inr h1, h2⟩
      · rintro ⟨h1 | h1, h2⟩
        · exact absurd (h1 ▸ hx) h2
        · exact ⟨h1, h2⟩
    · simp only [dedupGo, if_neg hx, List.mem_cons, ih, List.mem_cons, not_or]
      by_cases huv : u = x
      · simp [huv, hx]
      · simp [huv]

theorem dedupGo_nodup (l seen : List String) :
    (dedupGo seen l).1.Nodup ∧ ∀ u ∈ (dedupGo seen l).1, u ∉ seen := by
  induction l generalizing seen with
  | nil => simp [dedupGo]
  | cons x xs ih =>
    by_cases hx : x ∈ seen
    · simpa [dedupGo, hx] using ih seen
    · have ihx := ih (x :: seen)
      simp only [dedupGo, if_neg hx]
      constructor
      · refine List.nodup_cons.mpr ⟨?_, ihx.1⟩
        intro hmem
        exact (ihx.2 x hmem) (List.mem_cons_self x seen)
      · intro u hu
        rcases List.mem_cons.mp hu with rfl | hu2
        · exact hx
        · intro huseen
          exact (ihx.2 u hu2) (List.mem_cons_of_mem x huseen)

theorem dedupFirst_nodup (l : List String) : (dedupFirst l).Nodup :=
  (dedupGo_nodup l []).1

theorem dedupFirst_mem (l : List String) (u : String) : u ∈ dedupFirst l ↔ u ∈ l := by
  simpa [dedupFirst] using dedupGo_mem l [] u

/-! ## Claims -/

/-- C4 (counterexample): `tokFalsy` has three segments and its second
segment decodes to UTF-8 JSON containing the vendor claim key
`https://api.openai.com/auth` (bound to `false`), yet `isCodexJwt`
returns `false` — the code tests the truthiness of the claim value, not
the presence of the key. -/
theorem isCodexJwt_claim_counterexample :
    (splitOnChar '.' tokFalsy).length = 3 ∧
    jwtPayload tokFalsy = some (JsVal.obj [(AUTH_CLAIM, JsVal.bool false)]) ∧
    hasKey (JsVal.obj [(AUTH_CLAIM, JsVal.bool false)]) AUTH_CLAIM = true ∧
    isCodexJwt tokFalsy = false :=
  ⟨by rfl, by rfl, by rfl, by rfl⟩

/-- C4 (amended): `isCodexJwt` returns `true` exactly for the tokens with
three `.`-separated segments whose second segment base64-decodes to UTF-8
JSON whose value at the vendor claim key `https://api.openai.com/auth` is
truthy (present and not `false`, `0`, `""` or `null`); for every other
string — wrong segment count, non-JSON second segment, missing key, or a
falsy claim value — it returns `false`, and being a total function it
never throws. -/
theorem isCodexJwt_truthy_iff (token : String) :
    isCodexJwt token = true ↔
      ∃ v, jwtPayload token = some v ∧ truthy (jsGetOpt v AUTH_CLAIM) = true := by
  unfold isCodexJwt
  cases h : jwtPayload token with
  | none => simp
  | some v => simp

/-- C8 (counterexample): the token embedding `chatgpt_account_id` equal to
`" abc "` (present, and non-empty after trimming) is answered with the
trimmed `"abc"`, not with the embedded string itself — the round-trip is
not exact string equality. -/
theorem extractAccountId_claim_counterexample :
    jwtPayload tokTrim =
      some (JsVal.obj [(AUTH_CLAIM, JsVal.obj [("chatgpt_account_id", JsVal.str " abc ")])]) ∧
    jsTrim " abc " ≠ "" ∧
    extractAccountId tokTrim = some "abc" ∧
    extractAccountId tokTrim ≠ some " abc " :=
  ⟨by rfl, by decide, by rfl, by decide⟩

/-- C8 (amended): `extractAccountId` returns the *trimmed* value of the
embedded `chatgpt_account_id` when it is a string that is non-empty after
trimming, and is absent for malformed tokens, a missing claim, a
non-string value, or an empty/whitespace-only value (totality: it never
throws); the round-trip is exact precisely when the embedded id carries no
surrounding whitespace. -/
theorem extractAccountId_spec (token : String) :
    (∀ s, extractAccountId token = some s ↔
      ∃ v id, jwtPayload token = some v ∧
        jsGetOpt (jsGetOpt v AUTH_CLAIM) "chatgpt_account_id" = JsVal.str id ∧
        jsTrim id ≠ "" ∧ s = jsTrim id) ∧
    (∀ v id, jwtPayload token = some v →
      jsGetOpt (jsGetOpt v AUTH_CLAIM) "chatgpt_account_id" = JsVal.str id →
      jsTrim id = id → id ≠ "" → extractAccountId token = some id) := by
  have h1 : ∀ s, extractAccountId token = some s ↔
      ∃ v id, jwtPayload token = some v ∧
        jsGetOpt (jsGetOpt v AUTH_CLAIM) "chatgpt_account_id" = JsVal.str id ∧
        jsTrim id ≠ "" ∧ s = jsTrim id := by
    intro s
    unfold extractAccountId
    cases hp : jwtPayload token with
    | none => simp
    | some v =>
      cases hv : jsGetOpt (jsGetOpt v AUTH_CLAIM) "chatgpt_account_id" with
      | str id =>
        by_cases ht : jsTrim id = ""
        · simp [ht, hv]
        · simp only [if_neg ht, hv, Option.some.injEq, JsVal.str.injEq]
          constructor
          · intro h
            exact ⟨v, id, rfl, hv, ht, h.symm⟩
          · rintro ⟨v2, id2, hv2, hid2, -, rfl⟩
            cases hv2
            rw [hv] at hid2
            cases hid2
            rfl
      | undef => simp [hv]
      | null => simp [hv]
      | bool b => simp [hv]
      | num n => simp [hv]
      | arr xs => simp [hv]
      | obj fs => simp [hv]
  refine ⟨h1, ?_⟩
  intro v id hp hv hid hne
  exact (h1 id).mpr ⟨v, id, hp, hv, fun h => hne (hid.symm.trans h), hid.symm⟩

/-- C8 (witness): the amended theorem applied to the well-formed token
`tokGood` recovers the embedded id `acct-xyz` exactly. -/
theorem extractAccountId_spec_witness : extractAccountId tokGood = some "acct-xyz" :=
  (extractAccountId_spec tokGood).2
    (JsVal.obj [(AUTH_CLAIM, JsVal.obj [("chatgpt_account_id", JsVal.str "acct-xyz")])])
    "acct-xyz" (by rfl) (by rfl) (by rfl) (by decide)

/-- C5 (counterexample): the universally quantified reading of the
claim's exemplar fails in both directions.  Over `longSnippetText`, which
contains the substring `[Example](https://example.com)` and is queried
with start `0` and end `len(text)`, the snippet does *not* contain
`Example`: the 300-character hard cap cuts the window before the link
label.  Over `bareUrlText`, which also contains that substring, the
snippet *does* contain `https://example.com`: link stripping only removes
URLs inside `[label](target)` markup, not bare occurrences. -/
theorem extractSnippetAround_claim_counterexample :
    (strContains longSnippetText "[Example](https://example.com)" = true ∧
      strContains
        (extractSnippetAround longSnippetText (some 0) (some (longSnippetText.length : Int)))
        "Example" = false) ∧
    (strContains bareUrlText "[Example](https://example.com)" = true ∧
      strContains
        (extractSnippetAround bareUrlText (some 0) (some (bareUrlText.length : Int)))
        "https://example.com" = true) :=
  ⟨⟨by rfl, by rfl⟩, ⟨by rfl, by rfl⟩⟩

/-- C5 (amended): `extractSnippetAround` returns `""` when either index is
absent or the text is empty.  Otherwise the result is exactly the
pipeline of the original claim: the window `[start-100, end+100]` clamped
to the text, trimmed, with every `[label](target)` link reduced to its
label (`snippetWindow`), returned as-is when it fits the 300-character
cap and hard-truncated to 297 characters plus `"..."` when longer; in
every case the result's length is at most 300.  The exemplar holds under
the side conditions the counterexamples force: whenever the stripped
trimmed window fits the cap, the snippet contains `Example` if the window
does, and avoids `https://example.com` if the URL does not survive
stripping.  Both conditions hold on the repository's snippet test
string. -/
theorem extractSnippetAround_spec :
    (∀ t e, extractSnippetAround t none e = "") ∧
    (∀ t s, extractSnippetAround t s none = "") ∧
    (∀ s e, extractSnippetAround "" s e = "") ∧
    (∀ (t : String) (s e : Int), t ≠ "" → (snippetWindow t s e).length ≤ 300 →
      extractSnippetAround t (some s) (some e) = snippetWindow t s e) ∧
    (∀ (t : String) (s e : Int), t ≠ "" → (snippetWindow t s e).length > 300 →
      extractSnippetAround t (some s) (some e) =
        jsSlice (snippetWindow t s e) 0 297 ++ "...") ∧
    (∀ t s e, (extractSnippetAround t s e).length ≤ 300) ∧
    (∀ (t : String) (s e : Int), t ≠ "" → (snippetWindow t s e).length ≤ 300 →
      strContains (snippetWindow t s e) "Example" = true →
      strContains (extractSnippetAround t (some s) (some e)) "Example" = true) ∧
    (∀ (t : String) (s e : Int), t ≠ "" → (snippetWindow t s e).length ≤ 300 →
      strContains (snippetWindow t s e) "https://example.com" = false →
      strContains (extractSnippetAround t (some s) (some e)) "https://example.com" = false) ∧
    strContains (extractSnippetAround snippetTestText (some 0)
      (some (snippetTestText.length : Int))) "Example" = true ∧
    strContains (extractSnippetAround snippetTestText (some 0)
      (some (snippetTestText.length : Int))) "https://example.com" = false := by
  have hpipe : ∀ (t : String) (s e : Int), extractSnippetAround t (some s) (some e) =
      (if t = "" then ""
       else if (snippetWindow t s e).length > 300 then
         jsSlice (snippetWindow t s e) 0 297 ++ "..."
       else snippetWindow t s e) := fun t s e => rfl
  have h4 : ∀ (t : String) (s e : Int), t ≠ "" → (snippetWindow t s e).length ≤ 300 →
      extractSnippetAround t (some s) (some e) = snippetWindow t s e := by
    intro t s e ht hle
    rw [hpipe, if_neg ht, if_neg (by omega : ¬ (snippetWindow t s e).length > 300)]
  have h5 : ∀ (t : String) (s e : Int), t ≠ "" → (snippetWindow t s e).length > 300 →
      extractSnippetAround t (some s) (some e) =
        jsSlice (snippetWindow t s e) 0 297 ++ "..." := by
    intro t s e ht hgt
    rw [hpipe, if_neg ht, if_pos hgt]
  refine ⟨?_, ?_, ?_, h4, h5, ?_, ?_, ?_, by rfl, by rfl⟩
  · intro t e
    cases e <;> rfl
  · intro t s
    cases s <;> rfl
  · intro s e
    cases s with
    | none => rfl
    | some sv =>
      cases e with
      | none => rfl
      | some ev => rfl
  · intro t s e
    cases s with
    | none => simp [extractSnippetAround]
    | some sv =>
      cases e with
      | none => simp [extractSnippetAround]
      | some ev =>
        rw [hpipe]
        by_cases h0 : t = ""
        · simp [h0]
        · rw [if_neg h0]
          by_cases hl : (snippetWindow t sv ev).length > 300
          · rw [if_pos hl]
            have h1 := jsSlice_trunc_length (snippetWindow t sv ev)
            have h2 : ("..." : String).length = 3 := by rfl
            rw [strLen_append, h2]
            omega
          · rw [if_neg hl]
            omega
  · intro t s e ht hle hc
    rw [h4 t s e ht hle]
    exact hc
  · intro t s e ht hle hc
    rw [h4 t s e ht hle]
    exact hc

/-- C5 (witness): the no-truncation clause of the amended theorem applied
to the repository's snippet test string, whose stripped trimmed window
fits the 300-character cap. -/
theorem extractSnippetAround_spec_witness :
    extractSnippetAround snippetTestText (some 0) (some (snippetTestText.length : Int)) =
      snippetWindow snippetTestText 0 (snippetTestText.length : Int) :=
  extractSnippetAround_spec.2.2.2.1 snippetTestText 0 (snippetTestText.length : Int)
    (by decide) (by decide)

/-- C9: when the light fetch succeeds and the content type does not
contain `html`, `smartFetch` returns `static-raw` with the body capped to
the byte budget (truncation marker appended when capped), the URL as
title, an empty link list — and its trace is exactly one light fetch: no
article extraction and no heavy render happen. -/
theorem smartFetch_static_raw_spec (dom : DomEnv) (fe : FetchEnv) (url : String) (r : StaticResp)
    (hs : fe.static = Except.ok r)
    (hh : strContains r.contentType "html" = false) :
    smartFetch dom fe url false =
      (Except.ok { markdown := capBody r.html, title := url, links := [], method := "static-raw" },
        [FetchEvent.lightFetch]) := by
  unfold smartFetch
  rw [hs]
  simp [hh]

/-- C9 (witness): the theorem applied to a concrete `text/plain` response. -/
theorem smartFetch_static_raw_witness :
    smartFetch domModel feRaw "https://example.com/t" false =
      (Except.ok ⟨capBody "plain text body", "https://example.com/t", [], "static-raw"⟩,
        [FetchEvent.lightFetch]) :=
  smartFetch_static_raw_spec domModel feRaw "https://example.com/t"
    ⟨"plain text body", "text/plain", "https://example.com/t"⟩
    (by rfl) (by rfl)

theorem jsGet_obj (fs : List (String × JsVal)) (k : String) :
    jsGet (JsVal.obj fs) k = some (jsGetOpt (JsVal.obj fs) k) := rfl

theorem scanLines_eq_findSome (ls : List String) :
    scanLines ls = ls.findSome? claimTerminal := by
  induction ls with
  | nil => rfl
  | cons l ls ih =>
    rw [List.findSome?_cons]
    simp only [scanLines, claimTerminal]
    by_cases hd : strStarts l "data: " = true
    · simp only [if_pos hd]
      by_cases hb : (jsTrim (strDropL l 6) = "" ∨ jsTrim (strDropL l 6) = "[DONE]")
      · simp only [if_pos hb]
        exact ih
      · simp only [if_neg hb]
        cases hp : jsonParse (jsTrim (strDropL l 6)) with
        | none => exact ih
        | some p =>
          cases p with
          | undef => exact ih
          | null => exact ih
          | bool b => exact ih
          | num n => exact ih
          | str t => exact ih
          | arr xs => exact ih
          | obj fs =>
            simp only [jsGet, jsGetOpt]
            split_ifs with hterm
            · rfl
            · exact ih
    · simp only [if_neg hd]
      exact ih

/-- C3: over every raw body handled as a newline-delimited event stream
(the whole-body JSON shortcut not applying), `parseSSEResponse` returns
the `response` field of the payload of the first `data: ` line whose
payload is non-blank, is not the `[DONE]` sentinel, JSON-parses, and has
`type` equal to `response.done` or `response.completed`; payloads that
fail to parse (or whose field access throws) are skipped and never abort
the scan, and if no terminal line exists the parse error is raised. -/
theorem parseSSEResponse_stream_spec (text : String)
    (h : (strStarts (jsTrim text) "\x7b" = true ∨ strStarts (jsTrim text) "[" = true) →
      jsonParse (jsTrim text) = none) :
    parseSSEResponse text =
      match (splitOnChar '\n' text).findSome? claimTerminal with
      | some v => Except.ok v
      | none => Except.error TERMINAL_ERR := by
  unfold parseSSEResponse
  by_cases hb : (strStarts (jsTrim text) "\x7b" = true ∨ strStarts (jsTrim text) "[" = true)
  · simp [hb, h hb, scanLines_eq_findSome]
  · simp [hb, scanLines_eq_findSome]

/-- C3 (witness): the test-suite stream (an in-progress event, then a
terminal `response.done` event, then `[DONE]`) yields the embedded
`response` object. -/
theorem parseSSEResponse_stream_witness :
    parseSSEResponse sseBody = Except.ok (JsVal.obj [("output", JsVal.arr [])]) := by
  rw [parseSSEResponse_stream_spec sseBody (fun hc => absurd hc (by decide))]
  rfl

/-- C10: when the trimmed body starts with a brace or bracket, a
successful whole-body JSON parse is returned as the entire document
(whatever its `type`, and not its `response` field), and a failed
whole-body parse falls through to the `data: ` line scan of the same
body. -/
theorem parseSSEResponse_doc_spec :
    (∀ text v, (strStarts (jsTrim text) "\x7b" = true ∨ strStarts (jsTrim text) "[" = true) →
      jsonParse (jsTrim text) = some v → parseSSEResponse text = Except.ok v) ∧
    (∀ text, (strStarts (jsTrim text) "\x7b" = true ∨ strStarts (jsTrim text) "[" = true) →
      jsonParse (jsTrim text) = none →
      parseSSEResponse text =
        match (splitOnChar '\n' text).findSome? claimTerminal with
        | some v => Except.ok v
        | none => Except.error TERMINAL_ERR) := by
  constructor
  · intro text v hb hp
    unfold parseSSEResponse
    simp [hb, hp]
  · intro text hb hp
    unfold parseSSEResponse
    simp [hb, hp, scanLines_eq_findSome]

/-- C10 (witness): a whole-body JSON document that itself looks like a
terminal event is returned whole (so not its `response` field `5`), and a
body whose brace-led text fails the whole-body parse falls through to the
line scan and recovers the `response` of its terminal line. -/
theorem parseSSEResponse_doc_witness :
    parseSSEResponse jsonDocBody =
      Except.ok (JsVal.obj [("type", JsVal.str "response.done"), ("response", JsVal.num 5)]) ∧
    parseSSEResponse brokenJsonBody = Except.ok (JsVal.num 5) := by
  constructor
  · exact parseSSEResponse_doc_spec.1 jsonDocBody _ (Or.inl (by rfl)) (by rfl)
  · rw [parseSSEResponse_doc_spec.2 brokenJsonBody (Or.inl (by rfl)) (by rfl)]
    rfl

theorem heavyPhase_method (dom : DomEnv) (fe : FetchEnv) (url : String) (tr : List FetchEvent)
    (out : FetchOut) (h : (heavyPhase dom fe url tr).1 = Except.ok out) :
    out.method = "playwright+readability" ∨ out.method = "playwright-raw" := by
  unfold heavyPhase at h
  split at h
  · cases h
  · split at h
    · cases h
      left
      rfl
    · cases h
      right
      rfl

theorem heavyPhase_filter (dom : DomEnv) (fe : FetchEnv) (url : String) (tr : List FetchEvent) :
    ((heavyPhase dom fe url tr).2.filter isNetworkFetch) =
      tr.filter isNetworkFetch ++ [FetchEvent.heavyFetch] := by
  unfold heavyPhase
  split
  · simp [List.filter_append, isNetworkFetch]
  · split <;> simp [List.filter_append, isNetworkFetch]

/-- C2: on the static path with an HTML response, `smartFetch` answers
`static+readability` exactly when the article extraction on the light
body (with the post-redirect URL as base) succeeds with a trimmed
markdown longer than 200 characters; otherwise it escalates, its trace of
network-tier invocations being exactly one light fetch followed by one
heavy-render fetch. -/
theorem smartFetch_readability_floor_spec (dom : DomEnv) (fe : FetchEnv) (url : String)
    (r : StaticResp) (hs : fe.static = Except.ok r)
    (hh : strContains r.contentType "html" = true) :
    ((∃ out, (smartFetch dom fe url false).1 = Except.ok out ∧
        out.method = "static+readability") ↔
      (∃ frag, htmlToMarkdown dom r.html r.finalUrl = some frag ∧
        (jsTrim frag.markdown).length > 200)) ∧
    ((¬ ∃ frag, htmlToMarkdown dom r.html r.finalUrl = some frag ∧
        (jsTrim frag.markdown).length > 200) →
      ((smartFetch dom fe url false).2.filter isNetworkFetch) =
        [FetchEvent.lightFetch, FetchEvent.heavyFetch]) ∧
    ((∃ frag, htmlToMarkdown dom r.html r.finalUrl = some frag ∧
        (jsTrim frag.markdown).length > 200) →
      (smartFetch dom fe url false).2 = [FetchEvent.lightFetch, FetchEvent.extractArticle]) := by
  have hsf : smartFetch dom fe url false =
      (match htmlToMarkdown dom r.html r.finalUrl with
        | some res =>
          if (jsTrim res.markdown).length > 200 then
            (Except.ok (⟨res.markdown, res.title, res.links, "static+readability"⟩ : FetchOut),
              [FetchEvent.lightFetch, FetchEvent.extractArticle])
          else heavyPhase dom fe url [FetchEvent.lightFetch, FetchEvent.extractArticle]
        | none => heavyPhase dom fe url [FetchEvent.lightFetch, FetchEvent.extractArticle]) := by
    unfold smartFetch
    rw [hs]
    simp [hh]
  cases hm : htmlToMarkdown dom r.html r.finalUrl with
  | none =>
    rw [hm] at hsf
    have hsf2 : smartFetch dom fe url false =
        heavyPhase dom fe url [FetchEvent.lightFetch, FetchEvent.extractArticle] := hsf
    refine ⟨?_, ?_, ?_⟩
    · constructor
      · rintro ⟨out, hout, hmethod⟩
        rw [hsf2] at hout
        rcases heavyPhase_method dom fe url _ out hout with hpm | hpm <;>
          rw [hpm] at hmethod <;> exact absurd hmethod (by decide)
      · rintro ⟨frag, hfrag, -⟩
        cases hfrag
    · intro _
      rw [hsf2, heavyPhase_filter]
      rfl
    · rintro ⟨frag, hfrag, -⟩
      cases hfrag
  | some res =>
    rw [hm] at hsf
    have hsf2 : smartFetch dom fe url false =
        (if (jsTrim res.markdown).length > 200 then
          (Except.ok (⟨res.markdown, res.title, res.links, "static+readability"⟩ : FetchOut),
            [FetchEvent.lightFetch, FetchEvent.extractArticle])
        else heavyPhase dom fe url [FetchEvent.lightFetch, FetchEvent.extractArticle]) := hsf
    by_cases hl : (jsTrim res.markdown).length > 200
    · rw [if_pos hl] at hsf2
      refine ⟨?_, ?_, ?_⟩
      · constructor
        · intro _
          exact ⟨res, rfl, hl⟩
        · intro _
          exact ⟨⟨res.markdown, res.title, res.links, "static+readability"⟩, by rw [hsf2], rfl⟩
      · intro hnot
        exact absurd ⟨res, rfl, hl⟩ hnot
      · intro _
        rw [hsf2]
    · rw [if_neg hl] at hsf2
      refine ⟨?_, ?_, ?_⟩
      · constructor
        · rintro ⟨out, hout, hmethod⟩
          rw [hsf2] at hout
          rcases heavyPhase_method dom fe url _ out hout with hpm | hpm <;>
            rw [hpm] at hmethod <;> exact absurd hmethod (by decide)
        · rintro ⟨frag, hfrag, hflen⟩
          cases hfrag
          exact absurd hflen hl
      · intro hnot
        rw [hsf2, heavyPhase_filter]
        rfl
      · rintro ⟨frag, hfrag, hflen⟩
        cases hfrag
        exact absurd hflen hl

/-- C2 (witness): a light HTML response whose extracted article is short
escalates, invoking the light tier then the heavy tier, once each. -/
theorem smartFetch_readability_floor_witness :
    ((smartFetch domModel feEscalate "https://example.com/page" false).2.filter isNetworkFetch) =
      [FetchEvent.lightFetch, FetchEvent.heavyFetch] := by
  apply (smartFetch_readability_floor_spec domModel feEscalate "https://example.com/page"
    ⟨"<div>hi</div>", "text/html", "https://example.com/final"⟩ (by rfl) (by rfl)).2.1
  rintro ⟨frag, hf, hl⟩
  rw [show htmlToMarkdown domModel "<div>hi</div>" "https://example.com/final" =
    some (⟨"<div>hi</div>", "T", []⟩ : MdResult) from rfl] at hf
  cases hf
  exact absurd hl (by decide)

/-- C7 (counterexample): with article extraction succeeding on a fragment
whose only `href` is `httpx://evil.test/x` (a valid absolute URL of the
`httpx` scheme), the link list keeps that URL although it is neither
`http` nor `https` — the filter tests only the four-character text prefix
`http`. -/
theorem htmlToMarkdown_http_only_counterexample :
    htmlToMarkdown domModel evilHtml "https://example.com/" =
      some ⟨evilHtml, "T", ["httpx://evil.test/x"]⟩ ∧
    strStarts "httpx://evil.test/x" "http://" = false ∧
    strStarts "httpx://evil.test/x" "https://" = false ∧
    strStarts "httpx://evil.test/x" "http" = true :=
  ⟨by rfl, by rfl, by rfl, by rfl⟩

/-- C7 (amended): when article extraction succeeds, the link list is
exactly the first-seen dedup (`dedupFirst`) of the scanned `href` values,
in scan order, filtered to those that resolve against the base URL to an
absolute form whose text starts with `"http"` (every http/https URL, but
also any other scheme whose name starts with `http`); hence it has no
duplicates and its members are exactly those resolved URLs; in particular
the relative link `/docs/page` against base `https://example.com/base`
appears as `https://example.com/docs/page`. -/
theorem htmlToMarkdown_links_spec :
    (∀ dom html url r a, htmlToMarkdown dom html url = some r →
      dom.readability html url = some a →
      (r.links = dedupFirst ((hrefScan a.content).filterMap fun h =>
          match dom.resolveURL h url with
          | some au => if strStarts au "http" = true then some au else none
          | none => none) ∧
        r.links.Nodup ∧
        (∀ x, x ∈ r.links ↔ ∃ h au, h ∈ hrefScan a.content ∧
          dom.resolveURL h url = some au ∧ strStarts au "http" = true ∧ x = au))) ∧
    (∃ r, htmlToMarkdown domModel articleHtmlC7 "https://example.com/base" = some r ∧
      "https://example.com/docs/page" ∈ r.links ∧
      resolveURLModel "/docs/page" "https://example.com/base" =
        some "https://example.com/docs/page") := by
  constructor
  · intro dom html url r a hr ha
    unfold htmlToMarkdown at hr
    rw [ha] at hr
    have hr2 : (if a.content = "" then (none : Option MdResult) else
        some ⟨dom.turndown a.content, a.title.getD "",
          linksOf (fun h => dom.resolveURL h url) a.content⟩) = some r := hr
    clear hr
    by_cases hc : a.content = ""
    · rw [if_pos hc] at hr2
      cases hr2
    · rw [if_neg hc] at hr2
      cases hr2
      refine ⟨rfl, ?_, ?_⟩
      · exact dedupFirst_nodup _
      · intro x
        show x ∈ linksOf (fun h => dom.resolveURL h url) a.content ↔ _
        unfold linksOf
        rw [dedupFirst_mem, List.mem_filterMap]
        constructor
        · rintro ⟨h, hmem, hf⟩
          have hf2 : (match dom.resolveURL h url with
              | some au => if strStarts au "http" = true then some au else none
              | none => none) = some x := hf
          clear hf
          cases hres : dom.resolveURL h url with
          | none =>
            rw [hres] at hf2
            cases hf2
          | some au =>
            rw [hres] at hf2
            have hf3 : (if strStarts au "http" = true then some au else none) = some x := hf2
            clear hf2
            by_cases hhp : strStarts au "http" = true
            · rw [if_pos hhp] at hf3
              cases hf3
              exact ⟨h, x, hmem, hres, hhp, rfl⟩
            · rw [if_neg hhp] at hf3
              cases hf3
        · rintro ⟨h, au, hmem, hres, hhp, rfl⟩
          refine ⟨h, hmem, ?_⟩
          have hgoal : (match dom.resolveURL h url with
              | some b => if strStarts b "http" = true then some b else none
              | none => none) = some x := by
            rw [hres]
            exact if_pos hhp
          exact hgoal
  · exact ⟨⟨articleHtmlC7, "T", ["https://example.com/docs/page"]⟩, by rfl, by simp, by rfl⟩

/-- C7 (witness): the amended theorem applied to the concrete article
fragment of the relative-link scenario yields the first-seen-order
equation for its link list. -/
theorem htmlToMarkdown_links_witness :
    (⟨articleHtmlC7, "T", ["https://example.com/docs/page"]⟩ : MdResult).links =
      dedupFirst ((hrefScan articleHtmlC7).filterMap fun h =>
        match domModel.resolveURL h "https://example.com/base" with
        | some au => if strStarts au "http" = true then some au else none
        | none => none) :=
  ((htmlToMarkdown_links_spec.1 domModel articleHtmlC7 "https://example.com/base"
    ⟨articleHtmlC7, "T", ["https://example.com/docs/page"]⟩ ⟨articleHtmlC7, some "T"⟩
    (by rfl) (by rfl))).1

/-! ## Pass structure of `extractSearchResults` -/

theorem relSt_compose (st st1 st2 : ExtractSt) (L1 L2 : List String)
    (h1r : st1.results.map (fun r => r.url) =
      st.results.map (fun r => r.url) ++ (dedupGo st.seen L1).1)
    (h1s : st1.seen = (dedupGo st.seen L1).2)
    (h2r : st2.results.map (fun r => r.url) =
      st1.results.map (fun r => r.url) ++ (dedupGo st1.seen L2).1)
    (h2s : st2.seen = (dedupGo st1.seen L2).2) :
    st2.results.map (fun r => r.url) =
      st.results.map (fun r => r.url) ++ (dedupGo st.seen (L1 ++ L2)).1 ∧
    st2.seen = (dedupGo st.seen (L1 ++ L2)).2 := by
  rw [dedupGo_append]
  constructor
  · rw [h2r, h1r, h1s, List.append_assoc]
  · rw [h2s, h1s]

theorem annStep_spec (part ann : JsVal) (st st' : ExtractSt)
    (h : annStep part st ann = some st') :
    st'.results.map (fun r => r.url) =
      st.results.map (fun r => r.url) ++
        (dedupGo st.seen ((annRawUrl ann).toList.map normalizeUrl)).1 ∧
    st'.seen = (dedupGo st.seen ((annRawUrl ann).toList.map normalizeUrl)).2 := by
  cases hg : jsGet ann "type" with
  | none =>
    have hstep : annStep part st ann = none := by
      unfold annStep
      rw [hg]
    rw [hstep] at h
    cases h
  | some t =>
    by_cases htype : isStrEq t "url_citation" = true
    case neg =>
      have hstep : annStep part st ann = some st := by
        unfold annStep
        rw [hg]
        exact if_pos htype
      have hraw : annRawUrl ann = none := by
        unfold annRawUrl
        rw [hg]
        exact if_pos htype
      rw [hstep] at h
      cases h
      rw [hraw]
      simp [dedupGo]
    case pos =>
      cases hu : jsGet ann "url" with
      | none =>
        have hstep : annStep part st ann = none := by
          unfold annStep
          rw [hg]
          refine Eq.trans (if_neg (not_not_intro htype)) ?_
          rw [hu]
        rw [hstep] at h
        cases h
      | some uv =>
        by_cases htr : truthy uv = true
        case neg =>
          have hstep : annStep part st ann = some st := by
            unfold annStep
            rw [hg]
            refine Eq.trans (if_neg (not_not_intro htype)) ?_
            rw [hu]
            exact if_pos htr
          have hraw : annRawUrl ann = none := by
            unfold annRawUrl
            rw [hg]
            refine Eq.trans (if_neg (not_not_intro htype)) ?_
            rw [hu]
            exact if_pos htr
          rw [hstep] at h
          cases h
          rw [hraw]
          simp [dedupGo]
        case pos =>
          cases has : asStr uv with
          | none =>
            have hstep : annStep part st ann = none := by
              unfold annStep
              rw [hg]
              refine Eq.trans (if_neg (not_not_intro htype)) ?_
              rw [hu]
              refine Eq.trans (if_neg (not_not_intro htr)) ?_
              rw [has]
            rw [hstep] at h
            cases h
          | some us =>
            have hraw : annRawUrl ann = some us := by
              unfold annRawUrl
              rw [hg]
              refine Eq.trans (if_neg (not_not_intro htype)) ?_
              rw [hu]
              refine Eq.trans (if_neg (not_not_intro htr)) ?_
              rw [has]
            rw [hraw]
            by_cases hseen : normalizeUrl us ∈ st.seen
            case pos =>
              have hstep : annStep part st ann = some st := by
                unfold annStep
                rw [hg]
                refine Eq.trans (if_neg (not_not_intro htype)) ?_
                rw [hu]
                refine Eq.trans (if_neg (not_not_intro htr)) ?_
                rw [has]
                exact if_pos hseen
              rw [hstep] at h
              cases h
              simp [dedupGo, hseen]
            case neg =>
              have e1 : annStep part st ann = (match jsGet part "text" with
                  | none => none
                  | some textv =>
                    match jsGet ann "start_index", jsGet ann "end_index" with
                    | some sv, some ev =>
                      (match extractSnippetJs textv sv ev with
                        | none => none
                        | some snippet =>
                          some ⟨normalizeUrl us :: st.seen,
                            st.results ++ [⟨annTitle ann (normalizeUrl us),
                              normalizeUrl us, snippet⟩]⟩)
                    | _, _ => none) := by
                unfold annStep
                rw [hg]
                refine Eq.trans (if_neg (not_not_intro htype)) ?_
                rw [hu]
                refine Eq.trans (if_neg (not_not_intro htr)) ?_
                rw [has]
                exact if_neg hseen
              rw [e1] at h
              cases htx : jsGet part "text" with
              | none =>
                rw [htx] at h
                cases h
              | some textv =>
                rw [htx] at h
                have h2 : (match jsGet ann "start_index", jsGet ann "end_index" with
                    | some sv, some ev =>
                      (match extractSnippetJs textv sv ev with
                        | none => none
                        | some snippet =>
                          some ⟨normalizeUrl us :: st.seen,
                            st.results ++ [⟨annTitle ann (normalizeUrl us),
                              normalizeUrl us, snippet⟩]⟩)
                    | _, _ => (none : Option ExtractSt)) = some st' := h
                cases hsi : jsGet ann "start_index" with
                | none =>
                  rw [hsi] at h2
                  cases h2
                | some sv =>
                  rw [hsi] at h2
                  cases hei : jsGet ann "end_index" with
                  | none =>
                    rw [hei] at h2
                    cases h2
                  | some ev =>
                    rw [hei] at h2
                    have h3 : (match extractSnippetJs textv sv ev with
                        | none => none
                        | some snippet =>
                          some (⟨normalizeUrl us :: st.seen,
                            st.results ++ [⟨annTitle ann (normalizeUrl us),
                              normalizeUrl us, snippet⟩]⟩ : ExtractSt)) = some st' := h2
                    cases hsn : extractSnippetJs textv sv ev with
                    | none =>
                      rw [hsn] at h3
                      cases h3
                    | some snippet =>
                      rw [hsn] at h3
                      cases h3
                      constructor
                      · simp [dedupGo, hseen, Option.toList]
                      · simp [dedupGo, hseen, Option.toList]

theorem annLoop_spec (part : JsVal) (anns : List JsVal) :
    ∀ st st', annLoop part st anns = some st' →
      st'.results.map (fun r => r.url) =
        st.results.map (fun r => r.url) ++
          (dedupGo st.seen ((anns.filterMap annRawUrl).map normalizeUrl)).1 ∧
      st'.seen = (dedupGo st.seen ((anns.filterMap annRawUrl).map normalizeUrl)).2 := by
  induction anns with
  | nil =>
    intro st st' h
    cases h
    simp [dedupGo]
  | cons a rest ih =>
    intro st st' h
    have h1 : (match annStep part st a with
        | none => none
        | some st2 => annLoop part st2 rest) = some st' := h
    cases hstep : annStep part st a with
    | none =>
      rw [hstep] at h1
      cases h1
    | some st2 =>
      rw [hstep] at h1
      have hrest := ih st2 st' h1
      have hone := annStep_spec part a st st2 hstep
      have hcomp := relSt_compose st st2 st' ((annRawUrl a).toList.map normalizeUrl)
        ((rest.filterMap annRawUrl).map normalizeUrl) hone.1 hone.2 hrest.1 hrest.2
      have hlist : (((a :: rest).filterMap annRawUrl).map normalizeUrl) =
          (annRawUrl a).toList.map normalizeUrl ++ (rest.filterMap annRawUrl).map normalizeUrl := by
        cases hra : annRawUrl a <;> simp [List.filterMap_cons, hra, Option.toList]
      rw [hlist]
      exact hcomp

theorem partStep_spec (st st' : ExtractSt) (part : JsVal) (h : partStep st part = some st') :
    st'.results.map (fun r => r.url) =
      st.results.map (fun r => r.url) ++ (dedupGo st.seen ((partRawUrls part).map normalizeUrl)).1 ∧
    st'.seen = (dedupGo st.seen ((partRawUrls part).map normalizeUrl)).2 := by
  unfold partStep at h
  cases hav : jsGet part "annotations" with
  | none =>
    rw [hav] at h
    cases h
  | some av =>
    rw [hav] at h
    have h1 : (match iterDefault av with
        | none => none
        | some anns => annLoop part st anns) = some st' := h
    cases hit : iterDefault av with
    | none =>
      rw [hit] at h1
      cases h1
    | some anns =>
      rw [hit] at h1
      have hraw : partRawUrls part = anns.filterMap annRawUrl := by
        have e : partRawUrls part = (match iterDefault av with
            | none => []
            | some anns2 => anns2.filterMap annRawUrl) := by
          unfold partRawUrls
          rw [hav]
        rw [e, hit]
      rw [hraw]
      exact annLoop_spec part anns st st' h1

theorem partLoop_spec (parts : List JsVal) :
    ∀ st st', partLoop st parts = some st' →
      st'.results.map (fun r => r.url) =
        st.results.map (fun r => r.url) ++
          (dedupGo st.seen (((parts.map partRawUrls).flatten).map normalizeUrl)).1 ∧
      st'.seen = (dedupGo st.seen (((parts.map partRawUrls).flatten).map normalizeUrl)).2 := by
  induction parts with
  | nil =>
    intro st st' h
    cases h
    simp [dedupGo]
  | cons p rest ih =>
    intro st st' h
    have h1 : (match partStep st p with
        | none => none
        | some st2 => partLoop st2 rest) = some st' := h
    cases hstep : partStep st p with
    | none =>
      rw [hstep] at h1
      cases h1
    | some st2 =>
      rw [hstep] at h1
      have hrest := ih st2 st' h1
      have hone := partStep_spec st st2 p hstep
      have hcomp := relSt_compose st st2 st' ((partRawUrls p).map normalizeUrl)
        (((rest.map partRawUrls).flatten).map normalizeUrl) hone.1 hone.2 hrest.1 hrest.2
      have hlist : ((((p :: rest).map partRawUrls).flatten).map normalizeUrl) =
          (partRawUrls p).map normalizeUrl ++ (((rest.map partRawUrls).flatten).map normalizeUrl) := by
        simp
      rw [hlist]
      exact hcomp

theorem itemStep1_spec (st st' : ExtractSt) (item : JsVal) (h : itemStep1 st item = some st') :
    st'.results.map (fun r => r.url) =
      st.results.map (fun r => r.url) ++ (dedupGo st.seen ((itemRawUrls1 item).map normalizeUrl)).1 ∧
    st'.seen = (dedupGo st.seen ((itemRawUrls1 item).map normalizeUrl)).2 := by
  unfold itemStep1 at h
  cases hg : jsGet item "type" with
  | none =>
    rw [hg] at h
    cases h
  | some t =>
    rw [hg] at h
    have h1 : (if ¬ isStrEq t "message" = true then some st
        else
          match jsGet item "content" with
          | none => none
          | some cv =>
            match iterDefault cv with
            | none => none
            | some parts => partLoop st parts) = some st' := h
    by_cases htype : isStrEq t "message" = true
    case neg =>
      rw [if_pos htype] at h1
      cases h1
      have hraw : itemRawUrls1 item = [] := by
        have e : itemRawUrls1 item = (if ¬ isStrEq t "message" = true then []
            else
              match jsGet item "content" with
              | none => []
              | some cv =>
                match iterDefault cv with
                | none => []
                | some parts => (parts.map partRawUrls).flatten) := by
          unfold itemRawUrls1
          rw [hg]
        rw [e, if_pos htype]
      rw [hraw]
      simp [dedupGo]
    case pos =>
      rw [if_neg (not_not_intro htype)] at h1
      cases hcv : jsGet item "content" with
      | none =>
        rw [hcv] at h1
        cases h1
      | some cv =>
        rw [hcv] at h1
        have h2 : (match iterDefault cv with
            | none => none
            | some parts => partLoop st parts) = some st' := h1
        cases hit : iterDefault cv with
        | none =>
          rw [hit] at h2
          cases h2
        | some parts =>
          rw [hit] at h2
          have hraw : itemRawUrls1 item = (parts.map partRawUrls).flatten := by
            have e : itemRawUrls1 item = (if ¬ isStrEq t "message" = true then []
                else
                  match jsGet item "content" with
                  | none => []
                  | some cv2 =>
                    match iterDefault cv2 with
                    | none => []
                    | some parts2 => (parts2.map partRawUrls).flatten) := by
              unfold itemRawUrls1
              rw [hg]
            rw [e, if_neg (not_not_intro htype), hcv]
            have e3 : (match iterDefault cv with
                | none => ([] : List String)
                | some parts2 => (parts2.map partRawUrls).flatten) =
                (parts.map partRawUrls).flatten := by
              rw [hit]
            exact e3
          rw [hraw]
          exact partLoop_spec parts st st' h2

theorem itemLoop1_spec (items : List JsVal) :
    ∀ st st', itemLoop1 st items = some st' →
      st'.results.map (fun r => r.url) =
        st.results.map (fun r => r.url) ++
          (dedupGo st.seen (((items.map itemRawUrls1).flatten).map normalizeUrl)).1 ∧
      st'.seen = (dedupGo st.seen (((items.map itemRawUrls1).flatten).map normalizeUrl)).2 := by
  induction items with
  | nil =>
    intro st st' h
    cases h
    simp [dedupGo]
  | cons i rest ih =>
    intro st st' h
    have h1 : (match itemStep1 st i with
        | none => none
        | some st2 => itemLoop1 st2 rest) = some st' := h
    cases hstep : itemStep1 st i with
    | none =>
      rw [hstep] at h1
      cases h1
    | some st2 =>
      rw [hstep] at h1
      have hrest := ih st2 st' h1
      have hone := itemStep1_spec st st2 i hstep
      have hcomp := relSt_compose st st2 st' ((itemRawUrls1 i).map normalizeUrl)
        (((rest.map itemRawUrls1).flatten).map normalizeUrl) hone.1 hone.2 hrest.1 hrest.2
      have hlist : ((((i :: rest).map itemRawUrls1).flatten).map normalizeUrl) =
          (itemRawUrls1 i).map normalizeUrl ++ (((rest.map itemRawUrls1).flatten).map normalizeUrl) := by
        simp
      rw [hlist]
      exact hcomp

theorem srcStep_spec (st st' : ExtractSt) (source : JsVal) (h : srcStep st source = some st') :
    st'.results.map (fun r => r.url) =
      st.results.map (fun r => r.url) ++
        (dedupGo st.seen ((srcRawUrl source).toList.map normalizeUrl)).1 ∧
    st'.seen = (dedupGo st.seen ((srcRawUrl source).toList.map normalizeUrl)).2 := by
  cases hu : jsGet source "url" with
  | none =>
    have hstep : srcStep st source = none := by
      unfold srcStep
      rw [hu]
    rw [hstep] at h
    cases h
  | some uv =>
    by_cases htr : truthy uv = true
    case neg =>
      have hstep : srcStep st source = some st := by
        unfold srcStep
        rw [hu]
        exact if_pos htr
      have hraw : srcRawUrl source = none := by
        unfold srcRawUrl
        rw [hu]
        exact if_pos htr
      rw [hstep] at h
      cases h
      rw [hraw]
      simp [dedupGo]
    case pos =>
      cases has : asStr uv with
      | none =>
        have hstep : srcStep st source = none := by
          unfold srcStep
          rw [hu]
          refine Eq.trans (if_neg (not_not_intro htr)) ?_
          rw [has]
        rw [hstep] at h
        cases h
      | some us =>
        have hraw : srcRawUrl source = some us := by
          unfold srcRawUrl
          rw [hu]
          refine Eq.trans (if_neg (not_not_intro htr)) ?_
          rw [has]
        rw [hraw]
        by_cases hseen : normalizeUrl us ∈ st.seen
        case pos =>
          have hstep : srcStep st source = some st := by
            unfold srcStep
            rw [hu]
            refine Eq.trans (if_neg (not_not_intro htr)) ?_
            rw [has]
            exact if_pos hseen
          rw [hstep] at h
          cases h
          simp [dedupGo, hseen]
        case neg =>
          have hstep : srcStep st source =
              some ⟨normalizeUrl us :: st.seen,
                st.results ++ [⟨JsVal.str (normalizeUrl us), normalizeUrl us, ""⟩]⟩ := by
            unfold srcStep
            rw [hu]
            refine Eq.trans (if_neg (not_not_intro htr)) ?_
            rw [has]
            exact if_neg hseen
          rw [hstep] at h
          cases h
          constructor
          · simp [dedupGo, hseen, Option.toList]
          · simp [dedupGo, hseen, Option.toList]

theorem srcLoop_spec (sources : List JsVal) :
    ∀ st st', srcLoop st sources = some st' →
      st'.results.map (fun r => r.url) =
        st.results.map (fun r => r.url) ++
          (dedupGo st.seen ((sources.filterMap srcRawUrl).map normalizeUrl)).1 ∧
      st'.seen = (dedupGo st.seen ((sources.filterMap srcRawUrl).map normalizeUrl)).2 := by
  induction sources with
  | nil =>
    intro st st' h
    cases h
    simp [dedupGo]
  | cons s rest ih =>
    intro st st' h
    have h1 : (match srcStep st s with
        | none => none
        | some st2 => srcLoop st2 rest) = some st' := h
    cases hstep : srcStep st s with
    | none =>
      rw [hstep] at h1
      cases h1
    | some st2 =>
      rw [hstep] at h1
      have hrest := ih st2 st' h1
      have hone := srcStep_spec st st2 s hstep
      have hcomp := relSt_compose st st2 st' ((srcRawUrl s).toList.map normalizeUrl)
        ((rest.filterMap srcRawUrl).map normalizeUrl) hone.1 hone.2 hrest.1 hrest.2
      have hlist : (((s :: rest).filterMap srcRawUrl).map normalizeUrl) =
          (srcRawUrl s).toList.map normalizeUrl ++ (rest.filterMap srcRawUrl).map normalizeUrl := by
        cases hrs : srcRawUrl s <;> simp [List.filterMap_cons, hrs, Option.toList]
      rw [hlist]
      exact hcomp

theorem itemStep2_spec (st st' : ExtractSt) (item : JsVal) (h : itemStep2 st item = some st') :
    st'.results.map (fun r => r.url) =
      st.results.map (fun r => r.url) ++ (dedupGo st.seen ((itemRawUrls2 item).map normalizeUrl)).1 ∧
    st'.seen = (dedupGo st.seen ((itemRawUrls2 item).map normalizeUrl)).2 := by
  unfold itemStep2 at h
  cases hg : jsGet item "type" with
  | none =>
    rw [hg] at h
    cases h
  | some t =>
    rw [hg] at h
    have h1 : (if ¬ isStrEq t "web_search_call" = true then some st
        else
          match jsGet item "action" with
          | none => none
          | some av =>
            match iterDefault (jsGetOpt av "sources") with
            | none => none
            | some sources => srcLoop st sources) = some st' := h
    by_cases htype : isStrEq t "web_search_call" = true
    case neg =>
      rw [if_pos htype] at h1
      cases h1
      have hraw : itemRawUrls2 item = [] := by
        have e : itemRawUrls2 item = (if ¬ isStrEq t "web_search_call" = true then []
            else
              match jsGet item "action" with
              | none => []
              | some av =>
                match iterDefault (jsGetOpt av "sources") with
                | none => []
                | some sources => sources.filterMap srcRawUrl) := by
          unfold itemRawUrls2
          rw [hg]
        rw [e, if_pos htype]
      rw [hraw]
      simp [dedupGo]
    case pos =>
      rw [if_neg (not_not_intro htype)] at h1
      cases hav : jsGet item "action" with
      | none =>
        rw [hav] at h1
        cases h1
      | some av =>
        rw [hav] at h1
        have h2 : (match iterDefault (jsGetOpt av "sources") with
            | none => none
            | some sources => srcLoop st sources) = some st' := h1
        cases hit : iterDefault (jsGetOpt av "sources") with
        | none =>
          rw [hit] at h2
          cases h2
        | some sources =>
          rw [hit] at h2
          have hraw : itemRawUrls2 item = sources.filterMap srcRawUrl := by
            have e : itemRawUrls2 item = (if ¬ isStrEq t "web_search_call" = true then []
                else
                  match jsGet item "action" with
                  | none => []
                  | some av2 =>
                    match iterDefault (jsGetOpt av2 "sources") with
                    | none => []
                    | some sources2 => sources2.filterMap srcRawUrl) := by
              unfold itemRawUrls2
              rw [hg]
            rw [e, if_neg (not_not_intro htype), hav]
            have e3 : (match iterDefault (jsGetOpt av "sources") with
                | none => ([] : List String)
                | some sources2 => sources2.filterMap srcRawUrl) =
                sources.filterMap srcRawUrl := by
              rw [hit]
            exact e3
          rw [hraw]
          exact srcLoop_spec sources st st' h2

theorem itemLoop2_spec (items : List JsVal) :
    ∀ st st', itemLoop2 st items = some st' →
      st'.results.map (fun r => r.url) =
        st.results.map (fun r => r.url) ++
          (dedupGo st.seen (((items.map itemRawUrls2).flatten).map normalizeUrl)).1 ∧
      st'.seen = (dedupGo st.seen (((items.map itemRawUrls2).flatten).map normalizeUrl)).2 := by
  induction items with
  | nil =>
    intro st st' h
    cases h
    simp [dedupGo]
  | cons i rest ih =>
    intro st st' h
    have h1 : (match itemStep2 st i with
        | none => none
        | some st2 => itemLoop2 st2 rest) = some st' := h
    cases hstep : itemStep2 st i with
    | none =>
      rw [hstep] at h1
      cases h1
    | some st2 =>
      rw [hstep] at h1
      have hrest := ih st2 st' h1
      have hone := itemStep2_spec st st2 i hstep
      have hcomp := relSt_compose st st2 st' ((itemRawUrls2 i).map normalizeUrl)
        (((rest.map itemRawUrls2).flatten).map normalizeUrl) hone.1 hone.2 hrest.1 hrest.2
      have hlist : ((((i :: rest).map itemRawUrls2).flatten).map normalizeUrl) =
          (itemRawUrls2 i).map normalizeUrl ++ (((rest.map itemRawUrls2).flatten).map normalizeUrl) := by
        simp
      rw [hlist]
      exact hcomp

theorem extract_pass_split (resp : JsVal) (rs : List SearchResult)
    (h : extractSearchResults resp = some rs) :
    rs.map (fun r => r.url) =
      (dedupGo [] ((annUrls resp).map normalizeUrl)).1 ++
      (dedupGo (dedupGo [] ((annUrls resp).map normalizeUrl)).2
        ((srcUrls resp).map normalizeUrl)).1 := by
  unfold extractSearchResults at h
  cases ho : jsGetOpt resp "output" with
  | arr items =>
    rw [ho] at h
    have hA : annUrls resp = (items.map itemRawUrls1).flatten := by
      unfold annUrls
      rw [ho]
    have hS : srcUrls resp = (items.map itemRawUrls2).flatten := by
      unfold srcUrls
      rw [ho]
    rw [hA, hS]
    have h1 : (match itemLoop1 ⟨[], []⟩ items with
        | none => none
        | some st1 =>
          match itemLoop2 st1 items with
          | none => none
          | some st2 => some st2.results) = some rs := h
    cases hl1 : itemLoop1 ⟨[], []⟩ items with
    | none =>
      rw [hl1] at h1
      cases h1
    | some st1 =>
      rw [hl1] at h1
      have h2 : (match itemLoop2 st1 items with
          | none => none
          | some st2 => some st2.results) = some rs := h1
      cases hl2 : itemLoop2 st1 items with
      | none =>
        rw [hl2] at h2
        cases h2
      | some st2 =>
        rw [hl2] at h2
        cases h2
        have p1 := itemLoop1_spec items ⟨[], []⟩ st1 hl1
        have p2 := itemLoop2_spec items st1 st2 hl2
        obtain ⟨p1r, p1s⟩ := p1
        obtain ⟨p2r, p2s⟩ := p2
        rw [p2r, p1r, p1s]
        simp
  | undef =>
    rw [ho] at h
    have h1 : some ([] : List SearchResult) = some rs := h
    cases h1
    have hA : annUrls resp = [] := by
      unfold annUrls
      rw [ho]
    have hS : srcUrls resp = [] := by
      unfold srcUrls
      rw [ho]
    rw [hA, hS]
    rfl
  | null =>
    rw [ho] at h
    have h1 : some ([] : List SearchResult) = some rs := h
    cases h1
    have hA : annUrls resp = [] := by
      unfold annUrls
      rw [ho]
    have hS : srcUrls resp = [] := by
      unfold srcUrls
      rw [ho]
    rw [hA, hS]
    rfl
  | bool b =>
    rw [ho] at h
    have h1 : some ([] : List SearchResult) = some rs := h
    cases h1
    have hA : annUrls resp = [] := by
      unfold annUrls
      rw [ho]
    have hS : srcUrls resp = [] := by
      unfold srcUrls
      rw [ho]
    rw [hA, hS]
    rfl
  | num n =>
    rw [ho] at h
    have h1 : some ([] : List SearchResult) = some rs := h
    cases h1
    have hA : annUrls resp = [] := by
      unfold annUrls
      rw [ho]
    have hS : srcUrls resp = [] := by
      unfold srcUrls
      rw [ho]
    rw [hA, hS]
    rfl
  | str s =>
    rw [ho] at h
    have h1 : some ([] : List SearchResult) = some rs := h
    cases h1
    have hA : annUrls resp = [] := by
      unfold annUrls
      rw [ho]
    have hS : srcUrls resp = [] := by
      unfold srcUrls
      rw [ho]
    rw [hA, hS]
    rfl
  | obj fs =>
    rw [ho] at h
    have h1 : some ([] : List SearchResult) = some rs := h
    cases h1
    have hA : annUrls resp = [] := by
      unfold annUrls
      rw [ho]
    have hS : srcUrls resp = [] := by
      unfold srcUrls
      rw [ho]
    rw [hA, hS]
    rfl

theorem extract_urls_eq (resp : JsVal) (rs : List SearchResult)
    (h : extractSearchResults resp = some rs) :
    rs.map (fun r => r.url) = dedupFirst ((annUrls resp ++ srcUrls resp).map normalizeUrl) := by
  have hp := extract_pass_split resp rs h
  rw [hp]
  unfold dedupFirst
  rw [List.map_append, dedupGo_append]

/-- C1: on the structured response with two citation annotations whose
URLs normalise to the same address plus a duplicate and a distinct
backfill source, `extractSearchResults` returns exactly two results, the
stripped citation URL first and the distinct backfill URL second; in
general the result URLs are the first-seen deduplication of the
normalized pass-1 citation URLs followed by that of the pass-2 backfill
URLs seeded with pass 1's final seen-set — one seen-set shared across
both passes, all pass-1 entries before all pass-2 entries, each pass in
source order. -/
theorem extractSearchResults_dedup_order :
    (extractSearchResults respC1 = some resultsC1 ∧
      resultsC1.length = 2 ∧
      resultsC1.map (fun r => r.url) = ["https://a.test", "https://b.test"] ∧
      normalizeUrl "https://a.test?utm_source=openai" = "https://a.test") ∧
    (∀ resp rs, extractSearchResults resp = some rs →
      rs.map (fun r => r.url) =
        (dedupGo [] ((annUrls resp).map normalizeUrl)).1 ++
        (dedupGo (dedupGo [] ((annUrls resp).map normalizeUrl)).2
          ((srcUrls resp).map normalizeUrl)).1) :=
  ⟨⟨by rfl, by rfl, by rfl, by rfl⟩, extract_pass_split⟩

/-- C1 (witness): the general pass-split equation applied to the concrete
response. -/
theorem extractSearchResults_dedup_order_witness :
    resultsC1.map (fun r => r.url) =
      (dedupGo [] ((annUrls respC1).map normalizeUrl)).1 ++
      (dedupGo (dedupGo [] ((annUrls respC1).map normalizeUrl)).2
        ((srcUrls respC1).map normalizeUrl)).1 :=
  extractSearchResults_dedup_order.2 respC1 resultsC1 (by rfl)

/-- C6: the stored result URLs are exactly the first-seen deduplication of
the raw citation and backfill URLs after `normalizeUrl` (the trailing
`?utm_source=openai` strip) is applied to each — so every URL is
normalized before being used as the dedup key and before being stored,
and no URL is stored twice. -/
theorem extractSearchResults_normalized (resp : JsVal) (rs : List SearchResult)
    (h : extractSearchResults resp = some rs) :
    rs.map (fun r => r.url) = dedupFirst ((annUrls resp ++ srcUrls resp).map normalizeUrl) ∧
    (rs.map (fun r => r.url)).Nodup := by
  have he := extract_urls_eq resp rs h
  refine ⟨he, ?_⟩
  rw [he]
  exact dedupFirst_nodup _

/-- C6 (witness): the normalization equation applied to the concrete
response. -/
theorem extractSearchResults_normalized_witness :
    resultsC1.map (fun r => r.url) =
      dedupFirst ((annUrls respC1 ++ srcUrls respC1).map normalizeUrl) ∧
    (resultsC1.map (fun r => r.url)).Nodup :=
  extractSearchResults_normalized respC1 resultsC1 (by rfl)
